import Mathlib

/-!
Verification of the cross-document rule matching and compliance engine.

The development shallowly embeds the Python sources:
  src2/s4_final.py      (parameter matching, threshold comparison, rule comparison)
  src/linking/linker.py (traceability linker)
  src/compliance/engine.py (compliance evaluator)
  src/reporting/formatter.py (audit formatter)
Machine floats are modelled by rationals, Python dicts by structures whose
fields carry the dict-get defaults, and the fallible integer parse by Option.
-/

/-! ### String utilities from s4_final.py -/

/-- Python str.lower, character by character (ASCII; the engine only keeps
ASCII letters and digits downstream, so non-ASCII differences are inert). -/
def pyLower (s : String) : String := String.mk (s.toList.map Char.toLower)

/-- Embedding of normalize_text: lowercase and drop every character outside
a-z and 0-9 (the regex sub of [^a-z0-9] with the empty string). -/
def normalize_text (t : String) : String :=
  if t = "" then ""
  else String.mk ((pyLower t).toList.filter fun c =>
    decide (('a' ≤ c ∧ c ≤ 'z') ∨ ('0' ≤ c ∧ c ≤ '9')))

/-- Substring test on character lists, embedding the Python `in` operator
on strings. -/
def isSubstr (sub : List Char) : List Char → Bool
  | [] => sub.isEmpty
  | c :: rest => sub.isPrefixOf (c :: rest) || isSubstr sub rest

/-- Maximal runs of lowercase letters in a character list; the composition of
re.split on underscores and whitespace with re.findall of [a-z]+ in get_words
reduces to exactly this (every non-letter breaks a run). -/
def letterRuns : List Char → List Char → List (List Char)
  | [], acc => if acc = [] then [] else [acc.reverse]
  | c :: rest, acc =>
    if decide ('a' ≤ c ∧ c ≤ 'z') then letterRuns rest (c :: acc)
    else if acc = [] then letterRuns rest [] else acc.reverse :: letterRuns rest []

/-- Stop words filtered out by get_words. -/
def stopWords : List String := ["max", "min", "count", "ratio", "value"]

/-- Embedding of get_words: lowercase-letter tokens of the lowered name,
keeping tokens longer than two characters and outside the stop set; the
Python set is modelled by a deduplicated list. -/
def get_words (p : String) : List String :=
  (((letterRuns (pyLower p).toList []).map fun r => String.mk r).filter fun w =>
    decide (w.length > 2 ∧ w ∉ stopWords)).dedup

/-- Length of the common prefix of two character lists. -/
def commonPrefixLen : List Char → List Char → Nat
  | a :: as, b :: bs => if a = b then commonPrefixLen as bs + 1 else 0
  | _, _ => 0

/-- Longest matching block of difflib.SequenceMatcher (no junk: the inputs
are far below the 200-character autojunk cutoff everywhere the engine calls
it): among maximal common blocks pick the largest, breaking ties by the
earliest start in the first string and then in the second. Returns
(start in a, start in b, size). -/
def lmBest (a b : List Char) : Nat × Nat × Nat :=
  (List.range a.length).foldl (fun best i =>
    (List.range b.length).foldl (fun best j =>
      let k := commonPrefixLen (a.drop i) (b.drop j)
      if k > best.2.2 then (i, j, k) else best) best) (0, 0, 0)

/-- Total size of the matching blocks of SequenceMatcher, by the recursive
divide-and-conquer of get_matching_blocks. Fuel bounds the recursion depth;
every recursive call strictly shrinks the combined length, so fuel equal to
the combined length plus one never runs out. -/
def matchTotalF : Nat → List Char → List Char → Nat
  | 0, _, _ => 0
  | fuel + 1, a, b =>
    let best := lmBest a b
    if best.2.2 = 0 then 0
    else
      matchTotalF fuel (a.take best.1) (b.take best.2.1) + best.2.2 +
        matchTotalF fuel (a.drop (best.1 + best.2.2)) (b.drop (best.2.1 + best.2.2))

/-- SequenceMatcher ratio: twice the matched total over the combined length
(difflib returns 1.0 when both inputs are empty). -/
def smScore (a b : List Char) : ℚ :=
  let t := a.length + b.length
  if t = 0 then 1 else (2 * (matchTotalF (t + 1) a b) : ℚ) / (t : ℚ)

/-- Embedding of string_similarity: tiered scoring over normalized names -
exact match 1.0, containment 0.85, token-set overlap at least 0.7 (the
Jaccard index when larger), SequenceMatcher ratio as the fallback; empty
inputs or empty normalizations score 0. -/
def string_similarity (s1 s2 : String) : ℚ :=
  if s1 = "" ∨ s2 = "" then 0
  else
    let n1 := normalize_text s1
    let n2 := normalize_text s2
    if n1 = "" ∨ n2 = "" then 0
    else if n1 = n2 then 1
    else if isSubstr n1.toList n2.toList || isSubstr n2.toList n1.toList then 17/20
    else
      let w1 := get_words s1
      let w2 := get_words s2
      let overlap := w1.filter fun x => decide (x ∈ w2)
      if w1 ≠ [] ∧ w2 ≠ [] ∧ overlap ≠ [] then
        max (7/10) ((overlap.length : ℚ) / ((w1 ++ w2.filter fun x => decide (x ∉ w1)).length : ℚ))
      else smScore n1.toList n2.toList

/-! ### Operator algebra from s4_final.py -/

/-- Max-type operator family. -/
def maxOps : List String := ["LTE", "LT", "<=", "<"]

/-- Min-type operator family. -/
def minOps : List String := ["GTE", "GT", ">=", ">"]

/-- Equality operator family. -/
def eqOps : List String := ["EQUALS", "EQ", "=", "=="]

/-- Python str.upper, character by character (ASCII, as for pyLower). -/
def pyUpper (s : String) : String := String.mk (s.toList.map Char.toUpper)

/-- Embedding of operators_compatible: an empty operator is compatible with
anything; otherwise both uppercased operators must fall in the same family. -/
def operators_compatible (op1 op2 : String) : Bool :=
  if op1 = "" || op2 = "" then true
  else
    let o1 := pyUpper op1
    let o2 := pyUpper op2
    (maxOps.contains o1 && maxOps.contains o2) ||
    (minOps.contains o1 && minOps.contains o2) ||
    (eqOps.contains o1 && eqOps.contains o2)

/-- Canonicalization table of normalize_operator. -/
def opMap : List (String × String) :=
  [("lte", "<="), ("gte", ">="), ("lt", "<"), ("gt", ">"),
   ("equals", "=="), ("eq", "=="),
   ("<=", "<="), (">=", ">="), ("<", "<"), (">", ">"),
   ("=", "=="), ("==", "==")]

/-- Python whitespace test used by str.strip (ASCII subset; the operator
table and int() reject any other character anyway). -/
def isPyWs (c : Char) : Bool :=
  c = ' ' || c = '\t' || c = '\n' || c = '\r' || c = '\x0b' || c = '\x0c'

/-- Strip leading and trailing whitespace from a character list, embedding
str.strip with no argument. -/
def pyStripWs (l : List Char) : List Char :=
  ((l.dropWhile isPyWs).reverse.dropWhile isPyWs).reverse

/-- Embedding of normalize_operator: lowercase, strip, look up the canonical
symbol, returning the original operator on a missed lookup. -/
def normalize_operator (op : String) : String :=
  if op = "" then ""
  else match opMap.lookup (String.mk (pyStripWs (pyLower op).toList)) with
    | some v => v
    | none => op

/-! ### Threshold values and comparison from s4_final.py -/

/-- Runtime value of the value_numeric field of a threshold: the upstream
parser produces a float, a bool, or null (spec data model in section 3). -/
inductive VNum where
  | vnull : VNum
  | vbool : Bool → VNum
  | vnum : ℚ → VNum
deriving DecidableEq, Repr

/-- Whether a value is a Python bool (the isinstance checks of
compare_thresholds). -/
def VNum.isBool : VNum → Bool
  | .vbool _ => true
  | _ => false

/-- Python equality on threshold values: None equals only None, bools and
numbers compare with True identified with 1 and False with 0 (Python ==). -/
def pyEqV : VNum → VNum → Bool
  | .vnull, .vnull => true
  | .vbool b, .vbool c => b == c
  | .vbool b, .vnum q => decide (q = (if b then 1 else 0))
  | .vnum q, .vbool b => decide (q = (if b then 1 else 0))
  | .vnum p, .vnum q => decide (p = q)
  | _, _ => false

/-- Rendering of a value inside explanation strings (Python float repr is
approximated by the rational printer; no claim inspects these digits). -/
def vnumStr : VNum → String
  | .vnull => "None"
  | .vbool true => "True"
  | .vbool false => "False"
  | .vnum q => toString q

/-- Numeric payload of a value, used after the bool and null guards of
compare_thresholds have passed (the float conversion is then the identity). -/
def VNum.toQ : VNum → ℚ
  | .vnum q => q
  | _ => 0

/-- Threshold record: a dict with the keys read by the engine; absent keys
are modelled by the dict-get defaults (empty parameter and operator, null
value), the side fields _llm_reason and _source_id by options. -/
structure Thr where
  parameter : String := ""
  operator : String := ""
  value_numeric : VNum := .vnull
  llm_reason : Option String := none
  source_id : Option String := none
deriving DecidableEq, Repr

/-- Embedding of compare_thresholds: bools demand Python equality, a null on
either side passes as incomparable, numbers compare under the regulatory
operator family when the candidate operator agrees, and every remaining
pairing passes as "Review needed". -/
def compare_thresholds (rt ct : Thr) : Bool × String :=
  let regOp := normalize_operator rt.operator
  let cmpOp := normalize_operator ct.operator
  let rv := rt.value_numeric
  let cv := ct.value_numeric
  if rv.isBool || cv.isBool then
    if pyEqV rv cv then (true, "Match: both " ++ vnumStr rv)
    else (false, "Mismatch: reg=" ++ vnumStr rv ++ ", found=" ++ vnumStr cv)
  else if rv = .vnull || cv = .vnull then (true, "Cannot compare (missing value)")
  else
    let r := rv.toQ
    let c := cv.toQ
    if regOp = "<=" ∨ regOp = "<" then
      if cmpOp = "<=" ∨ cmpOp = "<" then
        if c ≤ r then (true, "OK: " ++ toString c ++ " ≤ " ++ toString r)
        else (false, "FAIL: allows " ++ toString c ++ ", reg caps at " ++ toString r)
      else (true, "Review needed (operator mismatch)")
    else if regOp = ">=" ∨ regOp = ">" then
      if cmpOp = ">=" ∨ cmpOp = ">" then
        if c ≥ r then (true, "OK: " ++ toString c ++ " ≥ " ++ toString r)
        else (false, "FAIL: requires " ++ toString c ++ ", reg min is " ++ toString r)
      else (true, "Review needed (operator mismatch)")
    else if regOp = "==" then
      if c = r then (true, "OK: exact match " ++ toString c)
      else (false, "FAIL: " ++ toString c ++ " ≠ " ++ toString r)
    else (true, "Review needed (operator mismatch)")

/-! ### Best-match search from s4_final.py -/

/-- Outcome of one llm_parameters_match call: is_match, confidence,
explanation. The LLM collaborator is external; its wrapper returns
confidence 0.9 on a yes, 0.1 on a no, and (false, 0.0) on an error. -/
def OracleFun : Type := String → String → Bool × ℚ × String

/-- Loop body of find_best_match, threading the running best, its score, and
the candidate pool as it is rewritten in place: an accepted mid-band
candidate has the explanation of the oracle attached to it (the in-place
dict write of the source), so the output pool is part of the state. -/
def fbmGo (o : OracleFun) (useLlm : Bool) (regParam regOp : String) :
    List Thr → Option Thr → ℚ → Option Thr × ℚ × List Thr
  | [], best, bestScore => (best, bestScore, [])
  | c :: rest, best, bestScore =>
    if c.parameter = "" then
      let r := fbmGo o useLlm regParam regOp rest best bestScore
      (r.1, r.2.1, c :: r.2.2)
    else
      let strScore := string_similarity regParam c.parameter
      let opBonus : ℚ := if operators_compatible regOp c.operator then 1/10 else 0
      let total := strScore + opBonus
      if strScore ≥ 7/10 then
        if total > bestScore then
          let r := fbmGo o useLlm regParam regOp rest (some c) total
          (r.1, r.2.1, c :: r.2.2)
        else
          let r := fbmGo o useLlm regParam regOp rest best bestScore
          (r.1, r.2.1, c :: r.2.2)
      else if strScore ≥ 3/10 ∧ useLlm then
        let ans := o regParam c.parameter
        if ans.1 then
          let adjusted := (strScore + ans.2.1) / 2 + opBonus
          if adjusted > bestScore then
            let c2 := { c with llm_reason := some ans.2.2 }
            let r := fbmGo o useLlm regParam regOp rest (some c2) adjusted
            (r.1, r.2.1, c2 :: r.2.2)
          else
            let r := fbmGo o useLlm regParam regOp rest best bestScore
            (r.1, r.2.1, c :: r.2.2)
        else
          let r := fbmGo o useLlm regParam regOp rest best bestScore
          (r.1, r.2.1, c :: r.2.2)
      else
        let r := fbmGo o useLlm regParam regOp rest best bestScore
        (r.1, r.2.1, c :: r.2.2)

/-- Embedding of find_best_match. The first component is the returned value
(best match with its confidence, or none), the second the candidate pool
after the call, reflecting any in-place writes the search performed. -/
def find_best_match (o : OracleFun) (useLlm : Bool) (regT : Thr)
    (cands : List Thr) : Option (Thr × ℚ) × List Thr :=
  if regT.parameter = "" then (none, cands)
  else
    let r := fbmGo o useLlm regT.parameter regT.operator cands none 0
    match r.1 with
    | some b => if r.2.1 ≥ 2/5 then (some (b, r.2.1), r.2.2) else (none, r.2.2)
    | none => (none, r.2.2)

/-! ### Rule comparison from s4_final.py -/

/-- Source rule holding a threshold list, with the identifier keys read by
compare_rule; an absent dict key is modelled by none. -/
structure Rule2 where
  rule_id : Option String := none
  clause_id : Option String := none
  thresholds : List Thr := []
deriving Repr

/-- Identifier attached to pooled thresholds: rule_id, else clause_id,
else the empty string (the nested dict-get defaults of compare_rule). -/
def sourceIdOf (r : Rule2) : String :=
  match r.rule_id with
  | some v => v
  | none => match r.clause_id with
    | some v => v
    | none => ""

/-- Pool of all thresholds of the source rules, each one a copy tagged with
the _source_id of its rule. -/
def poolOf (rules : List Rule2) : List Thr :=
  rules.flatMap fun r => r.thresholds.map fun t => { t with source_id := some (sourceIdOf r) }

/-- Python str.join over a separator, as used for the explanation string. -/
def pyJoin (sep : String) : List String → String
  | [] => ""
  | [x] => x
  | x :: y :: rest => x ++ sep ++ pyJoin sep (y :: rest)

/-- Loop of compare_rule over the regulatory thresholds: accumulates the
conjunction of the per-threshold outcomes and one explanation line each,
threading the candidate pool through the find_best_match calls. -/
def crGo (o : OracleFun) : List Thr → List Thr → Bool × List String
  | [], _ => (true, [])
  | rt :: rest, pool =>
    let param := rt.parameter
    let m := find_best_match o true rt pool
    match m.1 with
    | none =>
      let r := crGo o rest m.2
      (false, (param ++ ": ✗ NO MATCHING RULE FOUND - cannot verify compliance") :: r.2)
    | some (mt, _) =>
      let sid := mt.source_id.getD "?"
      let cmp := compare_thresholds rt mt
      let line := param ++ " [" ++ sid ++ "]: " ++ (if cmp.1 then "✓ " else "✗ ") ++ cmp.2
      let r := crGo o rest m.2
      (cmp.1 && r.1, line :: r.2)

/-- Embedding of compare_rule: N/A without regulatory thresholds, No when
the pooled source thresholds are empty, otherwise Yes exactly when every
regulatory threshold finds a match that passes comparison; the second
component is the joined explanation. -/
def compare_rule (o : OracleFun) (reg : Rule2) (sourceRules : List Rule2)
    (sourceType : String) : String × String :=
  if reg.thresholds = [] then ("N/A", "No thresholds to compare")
  else
    let pool := poolOf sourceRules
    if pool = [] then ("No", "No " ++ sourceType ++ " rules with thresholds")
    else
      let r := crGo o reg.thresholds pool
      (if r.1 then "Yes" else "No", pyJoin "; " r.2)

/-! ### Traceability linker from src/linking/linker.py -/

/-- Structured rule record of src/extraction/schema.py. -/
structure XRule where
  rule_id : String := ""
  doc_type : String := ""
  rule_type : String := ""
  metric : Option String := none
  operator : Option String := none
  value : Option String := none
  raw_text : String := ""
  source_ref : String := ""
  confidence : ℚ := 0
deriving DecidableEq, Repr

/-- Python truthiness of an optional string: present and non-empty. -/
def truthyOpt : Option String → Bool
  | none => false
  | some s => s ≠ ""

/-- Python round to three decimals on the rational model (round half to
even of the float version differs only at exact half-thousandth ties). -/
def round3 (x : ℚ) : ℚ := ((round (x * 1000) : ℤ) : ℚ) / 1000

/-- Candidate score of TraceabilityLinker._best_match: the collaborator
similarity of the raw texts plus 0.25 when the source metric is truthy
(non-null and non-empty) and equal to the candidate metric. -/
def bmTotal (sim : String → String → ℚ) (src c : XRule) : ℚ :=
  sim src.raw_text c.raw_text +
    (if truthyOpt src.metric && (src.metric == c.metric) then 1/4 else 0)

/-- Dynamic acceptance threshold of the linker: 0.45 for a
regulation-system pair, the constructor threshold otherwise. -/
def bmThr (thr : ℚ) (src c : XRule) : ℚ :=
  if src.doc_type = "REGULATION" ∧ c.doc_type = "SYSTEM" then 9/20 else thr

/-- Loop of TraceabilityLinker._best_match: a strictly better score at or
above its threshold replaces the best, which stores the capped rounded
score. -/
def bmGo (sim : String → String → ℚ) (thr : ℚ) (src : XRule) :
    List XRule → Option (XRule × ℚ) → ℚ → Option (XRule × ℚ)
  | [], best, _ => best
  | c :: rest, best, bestScore =>
    let score := bmTotal sim src c
    let threshold := bmThr thr src c
    if score > bestScore ∧ score ≥ threshold then
      bmGo sim thr src rest (some (c, round3 (min score 1))) score
    else
      bmGo sim thr src rest best bestScore

/-- Embedding of TraceabilityLinker._best_match with the similarity
collaborator as a parameter and thr the constructor threshold (0.6 by
default). -/
def best_match (sim : String → String → ℚ) (thr : ℚ) (src : XRule)
    (cands : List XRule) : Option (XRule × ℚ) :=
  bmGo sim thr src cands none 0

/-! ### Compliance evaluator from src/compliance/engine.py -/

/-- Modelled from the spec: the FindingType enum of
src/compliance/findings.py is imported by the engine but the module is not
in the sources; section 3 of the spec fixes its five members, and the
formatter matches finding values against the member names, so each value is
taken to be its name. -/
inductive FindingType where
  | compliant
  | missing_policy
  | missing_system
  | system_too_lenient
  | control_weakened
deriving DecidableEq, Repr

/-- Modelled from the spec: the string value of a FindingType member. -/
def FindingType.fvalue : FindingType → String
  | .compliant => "COMPLIANT"
  | .missing_policy => "MISSING_POLICY"
  | .missing_system => "MISSING_SYSTEM"
  | .system_too_lenient => "SYSTEM_TOO_LENIENT"
  | .control_weakened => "CONTROL_WEAKENED"

/-- Traceability link: one regulation with its optional policy and system
matches (each a rule and a score). -/
structure Trace where
  regulation : XRule
  policy : Option (XRule × ℚ) := none
  system : Option (XRule × ℚ) := none
deriving Repr

/-- Evaluation result dict of evaluate_trace. -/
structure EvalResult where
  regulation_text : String
  findings : List String
  evidence_policy : Option String
  evidence_system : Option String
deriving DecidableEq, Repr

/-- Digit tail of the Python int literal grammar: digits with single
underscores allowed only between digits. -/
def digitsGo (acc : Nat) : List Char → Option Nat
  | [] => some acc
  | c :: rest =>
    if c = '_' then
      match rest with
      | c2 :: rest2 =>
        if c2.isDigit then digitsGo (acc * 10 + (c2.toNat - 48)) rest2 else none
      | [] => none
    else if c.isDigit then digitsGo (acc * 10 + (c.toNat - 48)) rest else none

/-- Unsigned digit run of the int literal grammar: a leading digit then the
digit tail. -/
def pyIntDigits : List Char → Option Nat
  | [] => none
  | c :: rest => if c.isDigit then digitsGo (c.toNat - 48) rest else none

/-- Embedding of the Python int constructor on strings: optional surrounding
whitespace, optional sign, then a decimal digit run; anything else raises,
modelled as none. -/
def pyInt (s : String) : Option Int :=
  match pyStripWs s.toList with
  | [] => none
  | c :: rest =>
    if c = '+' then (pyIntDigits rest).map (fun n => (n : Int))
    else if c = '-' then (pyIntDigits rest).map (fun n => -(n : Int))
    else (pyIntDigits (c :: rest)).map (fun n => (n : Int))

/-- Removal of every percent sign, embedding value.replace of the source
(the replace of a one-character pattern is a filter). -/
def stripPct (s : String) : String := String.mk (s.toList.filter fun c => c ≠ '%')

/-- Findings of the numeric limit block of evaluate_trace; none models the
ValueError escaping from a failed int parse. -/
def limitFindings (reg : XRule) (sys : Option XRule) : Option (List FindingType) :=
  if reg.rule_type = "LIMIT" then
    match sys with
    | none => some [.missing_system]
    | some s =>
      if s.rule_type ≠ "LIMIT" then some [.system_too_lenient]
      else if truthyOpt reg.value && truthyOpt s.value then
        match pyInt (stripPct (reg.value.getD "")), pyInt (stripPct (s.value.getD "")) with
        | some rv, some sv => some (if sv > rv then [.system_too_lenient] else [])
        | _, _ => none
      else some []
  else some []

/-- Findings of the control strength block of evaluate_trace. -/
def reqFindings (reg : XRule) (sys : Option XRule) : List FindingType :=
  if reg.rule_type = "REQUIREMENT" then
    match sys with
    | none => []
    | some s =>
      if reg.operator = some "REQUIRED" ∧ s.operator = some "OPTIONAL" then
        [.control_weakened]
      else []
  else []

/-- Embedding of evaluate_trace: missing-enforcement findings, the numeric
limit block, the control strength block, then COMPLIANT when nothing was
added; none models the ValueError of the int parse escaping the call. -/
def evaluate_trace (t : Trace) : Option EvalResult :=
  let reg := t.regulation
  let pol := t.policy.map Prod.fst
  let sys := t.system.map Prod.fst
  let f1 := (if pol = none then [FindingType.missing_policy] else []) ++
            (if sys = none then [FindingType.missing_system] else [])
  match limitFindings reg sys with
  | none => none
  | some f2 =>
    let f3 := reqFindings reg sys
    let fs := f1 ++ f2 ++ f3
    let fs2 := if fs = [] then [FindingType.compliant] else fs
    some {
      regulation_text := reg.raw_text
      findings := fs2.map FindingType.fvalue
      evidence_policy := pol.map XRule.raw_text
      evidence_system := sys.map XRule.raw_text }

/-! ### Audit formatter from src/reporting/formatter.py -/

/-- Audit entry produced by format_audit_entry. -/
structure AuditEntry where
  regulation : String
  findings : List String
  severity : String
  evidence_policy : Option String
  evidence_system : Option String
deriving DecidableEq, Repr

/-- Embedding of format_audit_entry: severity HIGH on SYSTEM_TOO_LENIENT,
else MEDIUM on CONTROL_WEAKENED, else HIGH on MISSING_SYSTEM, else LOW. -/
def format_audit_entry (r : EvalResult) : AuditEntry :=
  let severity :=
    if r.findings.contains "SYSTEM_TOO_LENIENT" then "HIGH"
    else if r.findings.contains "CONTROL_WEAKENED" then "MEDIUM"
    else if r.findings.contains "MISSING_SYSTEM" then "HIGH"
    else "LOW"
  { regulation := r.regulation_text
    findings := r.findings
    severity := severity
    evidence_policy := r.evidence_policy
    evidence_system := r.evidence_system }

/-- Value-string format named by the numeric-check claim: one or more
decimal digits optionally followed by a single percent sign. -/
def digitsPct (s : String) : Bool :=
  let ds := s.toList.takeWhile Char.isDigit
  let rest := s.toList.dropWhile Char.isDigit
  decide (ds ≠ []) && (decide (rest = []) || decide (rest = ['%']))

/-- Whether one regulatory threshold finds an accepted match in a pool that
passes comparison - the per-threshold success criterion of compare_rule. -/
def threshold_passes (o : OracleFun) (rt : Thr) (pool : List Thr) : Bool :=
  match (find_best_match o true rt pool).1 with
  | none => false
  | some (mt, _) => (compare_thresholds rt mt).1

/-- Agreement of two thresholds on every field the engine reads for
matching, comparison and reporting - everything except the _llm_reason
side channel written by the LLM branch. -/
def thrEq (a b : Thr) : Prop :=
  a.parameter = b.parameter ∧ a.operator = b.operator ∧
  a.value_numeric = b.value_numeric ∧ a.source_id = b.source_id

/-! ### Theorems -/

/-- C8 counterexample: "!" is a non-empty text, yet string_similarity on the
pair ("!", "!") is 0, not 1.0, because normalization empties the string and
the empty-normalization guard fires before the exact-match tier. -/
theorem C8_counterexample : string_similarity "!" "!" = 0 ∧ "!" ≠ "" := by
  constructor
  · decide
  · decide

/-- C8 amended: for every text whose normalization is non-empty (it contains
at least one ASCII letter or digit), string_similarity of the text with
itself is 1.0. -/
theorem C8_amended (s : String) (h : normalize_text s ≠ "") :
    string_similarity s s = 1 := by
  have hs : s ≠ "" := by
    intro he
    subst he
    exact h rfl
  simp [string_similarity, hs, h]

/-- C8 witness: the amended theorem applied at the concrete text "abc". -/
theorem C8_amended_witness : string_similarity "abc" "abc" = 1 :=
  C8_amended "abc" (by decide)

/-- C2 counterexample: with numeric values 80 and 85, regulatory operator <=
and candidate operator >=, compare_thresholds reports compliant (the
"Review needed" pass), although the candidate value 85 is not at most the
regulation value 80 - the claim omits the operator-family precondition. -/
theorem C2_counterexample :
    (compare_thresholds { parameter := "x", operator := "<=", value_numeric := .vnum 80 }
      { parameter := "x", operator := ">=", value_numeric := .vnum 85 }).1 = true ∧
    normalize_operator "<=" = "<=" ∧ ¬ ((85 : ℚ) ≤ 80) := by
  refine ⟨by decide, by decide, by norm_num⟩

/-- C2 amended: for matched thresholds with non-null non-boolean numeric
values, when the candidate operator belongs to the family selected by the
regulatory operator, compare_thresholds is compliant iff candidate ≤
regulation under a max-type regulatory operator and iff candidate ≥
regulation under a min-type one; under an equality regulatory operator it is
compliant iff the values are equal whatever the candidate operator is; and
whenever either value_numeric is boolean it is compliant iff the values are
equal in the Python sense. -/
theorem C2_amended (rt ct : Thr) :
    (∀ r c : ℚ, rt.value_numeric = .vnum r → ct.value_numeric = .vnum c →
      (((normalize_operator rt.operator = "<=" ∨ normalize_operator rt.operator = "<") ∧
        (normalize_operator ct.operator = "<=" ∨ normalize_operator ct.operator = "<")) →
        ((compare_thresholds rt ct).1 = true ↔ c ≤ r)) ∧
      (((normalize_operator rt.operator = ">=" ∨ normalize_operator rt.operator = ">") ∧
        (normalize_operator ct.operator = ">=" ∨ normalize_operator ct.operator = ">")) →
        ((compare_thresholds rt ct).1 = true ↔ r ≤ c)) ∧
      (normalize_operator rt.operator = "==" →
        ((compare_thresholds rt ct).1 = true ↔ c = r))) ∧
    ((rt.value_numeric.isBool || ct.value_numeric.isBool) = true →
      ((compare_thresholds rt ct).1 = true ↔ pyEqV rt.value_numeric ct.value_numeric = true)) := by
  constructor
  · intro r c hr hc
    refine ⟨?_, ?_, ?_⟩
    · rintro ⟨h1 | h1, h2 | h2⟩ <;>
        simp [compare_thresholds, hr, hc, h1, h2, VNum.isBool, VNum.toQ] <;>
        split_ifs <;> simp_all
    · rintro ⟨h1 | h1, h2 | h2⟩ <;>
        simp [compare_thresholds, hr, hc, h1, h2, VNum.isBool, VNum.toQ] <;>
        split_ifs <;> simp_all
    · intro h1
      simp [compare_thresholds, hr, hc, h1, VNum.isBool, VNum.toQ]
      split_ifs <;> simp_all
  · intro hb
    rcases Bool.or_eq_true_iff.mp hb with h | h <;>
      simp [compare_thresholds, h] <;> split_ifs <;> simp_all

/-- C2 witness: the amended theorem applied at LTE 80 against <= 75,
yielding compliance since 75 ≤ 80. -/
theorem C2_amended_witness :
    (compare_thresholds { operator := "LTE", value_numeric := .vnum 80 }
      { operator := "<=", value_numeric := .vnum 75 }).1 = true :=
  (((C2_amended _ _).1 80 75 rfl rfl).1 ⟨Or.inl (by decide), Or.inl (by decide)⟩).mpr
    (by norm_num)

/-- C3: for matched thresholds, a null value_numeric on either side (with
neither boolean) yields the passing "Cannot compare" result, and a
max-type or min-type regulatory operator paired with a candidate operator
outside that family yields the passing "Review needed" result - both
non-blocking, and the comparison is a total function (no exception). -/
theorem C3_thm (rt ct : Thr) :
    ((rt.value_numeric.isBool = false ∧ ct.value_numeric.isBool = false ∧
      (rt.value_numeric = .vnull ∨ ct.value_numeric = .vnull)) →
      compare_thresholds rt ct = (true, "Cannot compare (missing value)")) ∧
    (∀ r c : ℚ, rt.value_numeric = .vnum r → ct.value_numeric = .vnum c →
      (((normalize_operator rt.operator = "<=" ∨ normalize_operator rt.operator = "<") ∧
        ¬(normalize_operator ct.operator = "<=" ∨ normalize_operator ct.operator = "<")) ∨
       ((normalize_operator rt.operator = ">=" ∨ normalize_operator rt.operator = ">") ∧
        ¬(normalize_operator ct.operator = ">=" ∨ normalize_operator ct.operator = ">"))) →
      compare_thresholds rt ct = (true, "Review needed (operator mismatch)")) := by
  constructor
  · rintro ⟨hb1, hb2, hn⟩
    rcases hn with h | h
    · cases hc : ct.value_numeric <;> simp_all [compare_thresholds, VNum.isBool]
    · cases hr : rt.value_numeric <;> simp_all [compare_thresholds, VNum.isBool]
  · intro r c hr hc hm
    rcases hm with ⟨h1 | h1, h2⟩ | ⟨h1 | h1, h2⟩ <;>
      simp [compare_thresholds, hr, hc, h1, h2, VNum.isBool]

/-- C3 witness: the theorem applied at a null-valued pair and at a
max-against-min numeric pair. -/
theorem C3_witness :
    compare_thresholds { operator := "<=" } { operator := "<=", value_numeric := .vnum 5 } =
      (true, "Cannot compare (missing value)") ∧
    compare_thresholds { operator := "<=", value_numeric := .vnum 80 }
      { operator := "GTE", value_numeric := .vnum 85 } =
      (true, "Review needed (operator mismatch)") :=
  ⟨(C3_thm _ _).1 ⟨rfl, rfl, Or.inl rfl⟩,
   (C3_thm _ _).2 80 85 rfl rfl (Or.inl ⟨Or.inl (by decide), by decide⟩)⟩

/-- With the LLM verification disabled, the best-match loop leaves the
candidate pool untouched and, when no candidate clears the 0.7 direct-hit
band, the running best is not moved at all. -/
theorem fbmGo_stall (o : OracleFun) (rp ro : String) :
    ∀ (cands : List Thr) (best : Option Thr) (bs : ℚ),
      (∀ c ∈ cands, c.parameter ≠ "" → string_similarity rp c.parameter < 7/10) →
      fbmGo o false rp ro cands best bs = (best, bs, cands) := by
  intro cands
  induction cands with
  | nil => intro best bs _; rfl
  | cons c rest ih =>
    intro best bs h
    have hrest : ∀ x ∈ rest, x.parameter ≠ "" → string_similarity rp x.parameter < 7/10 :=
      fun x hx => h x (List.mem_cons_of_mem _ hx)
    have hr := ih best bs hrest
    simp only [fbmGo, Bool.false_eq_true, and_false, if_false]
    set T := string_similarity rp c.parameter +
      (if operators_compatible ro c.operator then (1:ℚ)/10 else 0) with hT
    split_ifs with h1 h2 h3
    · simp [hr]
    · exact absurd h2 (not_le.mpr (h c (List.mem_cons_self _ _) h1))
    · exact absurd h2 (not_le.mpr (h c (List.mem_cons_self _ _) h1))
    · simp [hr]

/-- With the LLM verification disabled, the loop either keeps its running
best untouched or returns a direct-hit candidate from the pool at its total
score. -/
theorem fbmGo_some_noLlm (o : OracleFun) (rp ro : String) :
    ∀ (cands : List Thr) (best : Option Thr) (bs : ℚ),
      ((fbmGo o false rp ro cands best bs).1 = best ∧
       (fbmGo o false rp ro cands best bs).2.1 = bs) ∨
      (∃ c ∈ cands, c.parameter ≠ "" ∧ 7/10 ≤ string_similarity rp c.parameter ∧
        (fbmGo o false rp ro cands best bs).1 = some c ∧
        (fbmGo o false rp ro cands best bs).2.1 = string_similarity rp c.parameter +
          (if operators_compatible ro c.operator then (1:ℚ)/10 else 0)) := by
  intro cands
  induction cands with
  | nil => intro best bs; left; exact ⟨rfl, rfl⟩
  | cons c rest ih =>
    intro best bs
    simp only [fbmGo, Bool.false_eq_true, and_false, if_false]
    set T := string_similarity rp c.parameter +
      (if operators_compatible ro c.operator then (1:ℚ)/10 else 0) with hT
    split_ifs with h1 h2 h3
    · rcases ih best bs with ⟨ha, hb⟩ | ⟨d, hd, hd2, hd3, hd4, hd5⟩
      · left; exact ⟨ha, hb⟩
      · right; exact ⟨d, List.mem_cons_of_mem _ hd, hd2, hd3, hd4, hd5⟩
    · rcases ih (some c) T with ⟨ha, hb⟩ | ⟨d, hd, hd2, hd3, hd4, hd5⟩
      · right; exact ⟨c, List.mem_cons_self _ _, h1, h2, ha, hb⟩
      · right; exact ⟨d, List.mem_cons_of_mem _ hd, hd2, hd3, hd4, hd5⟩
    · rcases ih best bs with ⟨ha, hb⟩ | ⟨d, hd, hd2, hd3, hd4, hd5⟩
      · left; exact ⟨ha, hb⟩
      · right; exact ⟨d, List.mem_cons_of_mem _ hd, hd2, hd3, hd4, hd5⟩
    · rcases ih best bs with ⟨ha, hb⟩ | ⟨d, hd, hd2, hd3, hd4, hd5⟩
      · left; exact ⟨ha, hb⟩
      · right; exact ⟨d, List.mem_cons_of_mem _ hd, hd2, hd3, hd4, hd5⟩

/-- Running best score of the loop never decreases (LLM disabled). -/
theorem fbmGo_mono (o : OracleFun) (rp ro : String) :
    ∀ (cands : List Thr) (best : Option Thr) (bs : ℚ),
      bs ≤ (fbmGo o false rp ro cands best bs).2.1 := by
  intro cands
  induction cands with
  | nil => intro best bs; exact le_refl _
  | cons c rest ih =>
    intro best bs
    simp only [fbmGo, Bool.false_eq_true, and_false, if_false]
    set T := string_similarity rp c.parameter +
      (if operators_compatible ro c.operator then (1:ℚ)/10 else 0) with hT
    split_ifs with h1 h2 h3
    · exact ih best bs
    · exact le_trans (le_of_lt h3) (ih (some c) T)
    · exact ih best bs
    · exact ih best bs

/-- Once the loop holds a best candidate it never returns to none (LLM
disabled). -/
theorem fbmGo_someMono (o : OracleFun) (rp ro : String) :
    ∀ (cands : List Thr) (b : Thr) (bs : ℚ),
      (fbmGo o false rp ro cands (some b) bs).1.isSome = true := by
  intro cands
  induction cands with
  | nil => intro b bs; rfl
  | cons c rest ih =>
    intro b bs
    simp only [fbmGo, Bool.false_eq_true, and_false, if_false]
    set T := string_similarity rp c.parameter +
      (if operators_compatible ro c.operator then (1:ℚ)/10 else 0) with hT
    split_ifs with h1 h2 h3
    · exact ih b bs
    · exact ih c T
    · exact ih b bs
    · exact ih b bs

/-- Any direct-hit candidate in the pool forces the loop (LLM disabled) to
finish holding some best whose score is at least the 0.4 floor, provided an
empty running best starts at score 0 as in find_best_match. -/
theorem fbmGo_hit (o : OracleFun) (rp ro : String) :
    ∀ (cands : List Thr) (best : Option Thr) (bs : ℚ) (c : Thr),
      c ∈ cands → c.parameter ≠ "" → 7/10 ≤ string_similarity rp c.parameter →
      (best = none → bs = 0) →
      (fbmGo o false rp ro cands best bs).1.isSome = true ∧
      2/5 ≤ (fbmGo o false rp ro cands best bs).2.1 := by
  intro cands
  induction cands with
  | nil => intro best bs c hc; exact absurd hc (List.not_mem_nil c)
  | cons d rest ih =>
    intro best bs c hc hp hs hinv
    simp only [fbmGo, Bool.false_eq_true, and_false, if_false]
    set T := string_similarity rp d.parameter +
      (if operators_compatible ro d.operator then (1:ℚ)/10 else 0) with hT
    rcases List.mem_cons.mp hc with he | hmem
    · -- the hit is at the head of the pool
      subst he
      have h7 : 7/10 ≤ T := by
        have hb0 : (0:ℚ) ≤ (if operators_compatible ro c.operator then (1:ℚ)/10 else 0) := by
          split_ifs <;> norm_num
        rw [hT]
        linarith
      split_ifs with h1 h2
      · exact absurd h1 hp
      · refine ⟨fbmGo_someMono o rp ro rest c T, ?_⟩
        show 2/5 ≤ (fbmGo o false rp ro rest (some c) T).2.1
        have hm := fbmGo_mono o rp ro rest (some c) T
        exact le_trans (by norm_num : (2:ℚ)/5 ≤ 7/10) (le_trans h7 hm)
      · have h2le : T ≤ bs := not_lt.mp h2
        have hbs : 2/5 ≤ bs :=
          le_trans (by norm_num : (2:ℚ)/5 ≤ 7/10) (le_trans h7 h2le)
        cases hb : best with
        | none =>
          exfalso
          have h0 := hinv hb
          rw [h0] at hbs
          norm_num at hbs
        | some b =>
          refine ⟨fbmGo_someMono o rp ro rest b bs, ?_⟩
          show 2/5 ≤ (fbmGo o false rp ro rest (some b) bs).2.1
          have hm := fbmGo_mono o rp ro rest (some b) bs
          exact le_trans hbs hm
    · -- the hit is further down the pool
      split_ifs with h1 h2 h3
      · exact ih best bs c hmem hp hs hinv
      · exact ih (some d) T c hmem hp hs (by intro h; cases h)
      · exact ih best bs c hmem hp hs hinv
      · exact ih best bs c hmem hp hs hinv

/-- With the LLM verification disabled the loop emits the pool unchanged. -/
theorem fbmGo_pool_noLlm (o : OracleFun) (rp ro : String) :
    ∀ (cands : List Thr) (best : Option Thr) (bs : ℚ),
      (fbmGo o false rp ro cands best bs).2.2 = cands := by
  intro cands
  induction cands with
  | nil => intro best bs; rfl
  | cons c rest ih =>
    intro best bs
    simp only [fbmGo, Bool.false_eq_true, and_false, if_false]
    set T := string_similarity rp c.parameter +
      (if operators_compatible ro c.operator then (1:ℚ)/10 else 0) with hT
    split_ifs with h1 h2 h3
    · simp [ih]
    · simp [ih]
    · simp [ih]
    · simp [ih]

/-- C9 amended: with the LLM verification disabled, find_best_match leaves
every element of the candidate pool unchanged; with it enabled, the search
mutates an accepted mid-band candidate in place by attaching the oracle
explanation under the _llm_reason key, exactly as section 9 of the spec
describes the reference behavior. -/
theorem C9_amended (o : OracleFun) (regT : Thr) (cands : List Thr) :
    (find_best_match o false regT cands).2 = cands := by
  unfold find_best_match
  split_ifs with h1
  · rfl
  · cases hb : (fbmGo o false regT.parameter regT.operator cands none 0).1 with
    | none => simpa [hb] using fbmGo_pool_noLlm o regT.parameter regT.operator cands none 0
    | some b =>
      have hp := fbmGo_pool_noLlm o regT.parameter regT.operator cands none 0
      by_cases hs : (fbmGo o false regT.parameter regT.operator cands none 0).2.1 ≥ 2/5 <;>
        simp [hb, hs, hp]

/-- Evaluation helper: string_similarity in the SequenceMatcher fallback
tier (rational arithmetic is opaque to kernel reduction, so concrete scores
are computed through these equations instead of decide). -/
theorem ss_fallback (s1 s2 : String) (h1 : s1 ≠ "") (h2 : s2 ≠ "")
    (hn1 : normalize_text s1 ≠ "") (hn2 : normalize_text s2 ≠ "")
    (hne : normalize_text s1 ≠ normalize_text s2)
    (hsubA : isSubstr (normalize_text s1).data (normalize_text s2).data = false)
    (hsubB : isSubstr (normalize_text s2).data (normalize_text s1).data = false)
    (hov : ((get_words s1).filter fun x => decide (x ∈ get_words s2)) = []) :
    string_similarity s1 s2 = smScore (normalize_text s1).toList (normalize_text s2).toList := by
  simp [string_similarity, h1, h2, hn1, hn2, hne, hsubA, hsubB, hov]

/-- Evaluation helper: the SequenceMatcher score from a computed match
total. -/
theorem smScore_eval (a b : List Char) (m t : Nat) (ht : a.length + b.length = t)
    (h0 : t ≠ 0) (hm : matchTotalF (t + 1) a b = m) :
    smScore a b = (2 * m : ℚ) / t := by
  simp [smScore, ht, hm, h0]

/-- Evaluation helper: string_similarity of a string with itself whose
normalization is non-empty hits the exact tier. -/
theorem ss_refl (s : String) (h : normalize_text s ≠ "") (hs : s ≠ "") :
    string_similarity s s = 1 := by
  simp [string_similarity, hs, h]

/-- Concrete score: the pair ("abc", "abd") falls through to the
SequenceMatcher tier and scores 2/3. -/
theorem ss_abc_abd : string_similarity "abc" "abd" = 2/3 := by
  rw [ss_fallback "abc" "abd" (by decide) (by decide) (by decide) (by decide) (by decide)
    (by decide) (by decide) (by decide)]
  rw [show normalize_text "abc" = "abc" from by decide,
    show normalize_text "abd" = "abd" from by decide]
  rw [smScore_eval _ _ 2 6 (by decide) (by decide) (by decide)]
  norm_num

set_option maxRecDepth 4000 in
/-- Concrete score: the pair ("qawert", "qaxzcv") falls through to the
SequenceMatcher tier and scores 1/3. -/
theorem ss_qawert : string_similarity "qawert" "qaxzcv" = 1/3 := by
  rw [ss_fallback "qawert" "qaxzcv" (by decide) (by decide) (by decide) (by decide) (by decide)
    (by decide) (by decide) (by decide)]
  rw [show normalize_text "qawert" = "qawert" from by decide,
    show normalize_text "qaxzcv" = "qaxzcv" from by decide]
  rw [smScore_eval _ _ 2 12 (by decide) (by decide) (by decide)]
  norm_num

/-- Concrete score: the disjoint pair ("abc", "xyz") scores 0. -/
theorem ss_abc_xyz : string_similarity "abc" "xyz" = 0 := by
  rw [ss_fallback "abc" "xyz" (by decide) (by decide) (by decide) (by decide) (by decide)
    (by decide) (by decide) (by decide)]
  rw [show normalize_text "abc" = "abc" from by decide,
    show normalize_text "xyz" = "xyz" from by decide]
  rw [smScore_eval _ _ 0 6 (by decide) (by decide) (by decide)]
  norm_num

/-- C9 counterexample: with the LLM path enabled (the source default) and an
oracle that confirms the mid-band pair, find_best_match rewrites the pooled
candidate in place, attaching the _llm_reason field, so the pool after the
call differs from the pool passed in. -/
theorem C9_counterexample :
    (find_best_match (fun _ _ => (true, 9/10, "llm says same")) true
      { parameter := "abc" } [{ parameter := "abd" }]).2 =
      [{ parameter := "abd", llm_reason := some "llm says same" }] ∧
    ([{ parameter := "abd", llm_reason := some "llm says same" }] : List Thr) ≠
      [{ parameter := "abd" }] := by
  constructor
  · have hop : operators_compatible "" "" = true := by decide
    have hq1 : ¬((2:ℚ)/3 ≥ 7/10) := by norm_num
    have hq2 : ((2:ℚ)/3 ≥ 3/10) := by norm_num
    simp [find_best_match, fbmGo, ss_abc_abd, hop, hq1, hq2]
    norm_num
  · decide

/-- C1 amended: with the LLM verification disabled, find_best_match returns
a match only at a best score of at least 0.4 which is the name similarity of
the matched candidate plus the 0.1 operator-compatibility bonus, any
candidate with name similarity at least 0.7 guarantees that a direct hit is
returned, and if no candidate reaches total 0.4 no match is returned; with
the LLM enabled (the source default) a mid-band candidate confirmed by the
oracle is accepted at (similarity + confidence)/2 plus the bonus, which can
reach the 0.4 floor even when similarity plus bonus does not. -/
theorem C1_amended (o : OracleFun) (rt : Thr) (cands : List Thr) :
    (∀ m s, (find_best_match o false rt cands).1 = some (m, s) →
      2/5 ≤ s ∧ m ∈ cands ∧
      s = string_similarity rt.parameter m.parameter +
        (if operators_compatible rt.operator m.operator then (1:ℚ)/10 else 0)) ∧
    ((rt.parameter ≠ "" ∧ ∃ c ∈ cands, c.parameter ≠ "" ∧
        7/10 ≤ string_similarity rt.parameter c.parameter) →
      (find_best_match o false rt cands).1.isSome = true) ∧
    ((∀ c ∈ cands, string_similarity rt.parameter c.parameter +
        (if operators_compatible rt.operator c.operator then (1:ℚ)/10 else 0) < 2/5) →
      (find_best_match o false rt cands).1 = none) := by
  refine ⟨?_, ?_, ?_⟩
  · intro m s hms
    by_cases hp : rt.parameter = ""
    · simp [find_best_match, hp] at hms
    · rcases fbmGo_some_noLlm o rt.parameter rt.operator cands none 0 with
        ⟨ha, hb⟩ | ⟨c, hc, hcp, hcs, hc1, hc2⟩
      · simp [find_best_match, hp, ha] at hms
      · by_cases hge : (fbmGo o false rt.parameter rt.operator cands none 0).2.1 ≥ 2/5
        · simp [find_best_match, hp, hc1, hge] at hms
          obtain ⟨rfl, rfl⟩ := hms
          exact ⟨hge, hc, hc2⟩
        · simp [find_best_match, hp, hc1, hge] at hms
  · rintro ⟨hp, c, hc, hcp, hcs⟩
    obtain ⟨hsome, hge⟩ :=
      fbmGo_hit o rt.parameter rt.operator cands none 0 c hc hcp hcs (fun _ => rfl)
    obtain ⟨b, hb⟩ := Option.isSome_iff_exists.mp hsome
    simp [find_best_match, hp, hb, hge]
  · intro hall
    by_cases hp : rt.parameter = ""
    · simp [find_best_match, hp]
    · have hlt : ∀ c ∈ cands, c.parameter ≠ "" →
          string_similarity rt.parameter c.parameter < 7/10 := by
        intro c hc _
        have h := hall c hc
        have hb : (0:ℚ) ≤ (if operators_compatible rt.operator c.operator then (1:ℚ)/10 else 0) := by
          split_ifs <;> norm_num
        linarith
      have hstall := fbmGo_stall o rt.parameter rt.operator cands none 0 hlt
      simp [find_best_match, hp, hstall]

/-- C1 witness: the amended theorem applied at a direct-hit pool (identical
parameter names) and at a pool whose single candidate scores below the 0.4
floor. -/
theorem C1_amended_witness :
    (find_best_match (fun _ _ => (false, 0, "")) false { parameter := "ltv" }
      [{ parameter := "ltv" }]).1.isSome = true ∧
    (find_best_match (fun _ _ => (false, 0, "")) false { parameter := "abc" }
      [{ parameter := "xyz" }]).1 = none := by
  constructor
  · exact (C1_amended _ _ _).2.1 ⟨by decide, ⟨{ parameter := "ltv" }, by simp, by decide,
      by rw [ss_refl "ltv" (by decide) (by decide)]; norm_num⟩⟩
  · refine (C1_amended _ _ _).2.2 ?_
    intro c hc
    simp at hc
    subst hc
    rw [show ({ parameter := "xyz" } : Thr).parameter = "xyz" from rfl, ss_abc_xyz]
    simp [show operators_compatible "" "" = true from by decide]
    norm_num

/-- C1 counterexample: with the LLM enabled (the source default) and the
oracle confirming, the mid-band pair ("qawert", "qaxzcv") with incompatible
operators is accepted although its name similarity plus bonus is 1/3, below
the 0.4 floor - so a match is returned even though no candidate reaches
total 0.4 in the sense of the claim. -/
theorem C1_counterexample :
    ((find_best_match (fun _ _ => (true, 9/10, "related")) true
      { parameter := "qawert", operator := "<=" }
      [{ parameter := "qaxzcv", operator := ">=" }]).1).isSome = true ∧
    string_similarity "qawert" "qaxzcv" +
      (if operators_compatible "<=" ">=" then (1:ℚ)/10 else 0) < 2/5 := by
  constructor
  · have hop : operators_compatible "<=" ">=" = false := by decide
    have hq1 : ¬((1:ℚ)/3 ≥ 7/10) := by norm_num
    have hq2 : ((1:ℚ)/3 ≥ 3/10) := by norm_num
    simp [find_best_match, fbmGo, ss_qawert, hop, hq1, hq2]
    norm_num
  · rw [ss_qawert]
    simp [show operators_compatible "<=" ">=" = false from by decide]
    norm_num

/-- Digits are not whitespace. -/
theorem not_ws_of_digit (c : Char) (h : c.isDigit = true) : isPyWs c = false := by
  by_contra hw
  have hw2 : isPyWs c = true := by
    cases hx : isPyWs c with
    | false => exact absurd hx hw
    | true => rfl
  simp [isPyWs] at hw2
  rcases hw2 with ((((rfl | rfl) | rfl) | rfl) | rfl) | rfl <;> exact absurd h (by decide)

/-- Dropping leading whitespace from an all-digit list is the identity. -/
theorem dropWhile_ws_of_digits (l : List Char) (h : ∀ c ∈ l, c.isDigit = true) :
    l.dropWhile isPyWs = l := by
  cases l with
  | nil => rfl
  | cons c rest =>
    have hc := not_ws_of_digit c (h c (List.mem_cons_self _ _))
    simp [List.dropWhile_cons, hc]

/-- Stripping whitespace from an all-digit list is the identity. -/
theorem pyStripWs_of_digits (l : List Char) (h : ∀ c ∈ l, c.isDigit = true) :
    pyStripWs l = l := by
  unfold pyStripWs
  rw [dropWhile_ws_of_digits l h]
  have h2 : ∀ c ∈ l.reverse, c.isDigit = true := fun c hc => h c (List.mem_reverse.mp hc)
  rw [dropWhile_ws_of_digits l.reverse h2, List.reverse_reverse]

/-- The digit-tail parser succeeds on an all-digit list. -/
theorem digitsGo_isSome (l : List Char) (h : ∀ c ∈ l, c.isDigit = true) :
    ∀ acc, (digitsGo acc l).isSome = true := by
  induction l with
  | nil => intro acc; rfl
  | cons c rest ih =>
    intro acc
    have hc := h c (List.mem_cons_self _ _)
    have hrest : ∀ x ∈ rest, x.isDigit = true := fun x hx => h x (List.mem_cons_of_mem _ hx)
    have hne : ¬ c = '_' := by
      intro he
      subst he
      exact absurd hc (by decide)
    unfold digitsGo
    simp [hne, hc, ih hrest]

/-- The Python int constructor succeeds on every non-empty all-digit
string. -/
theorem pyInt_isSome_of_digits (l : List Char) (hne : l ≠ [])
    (h : ∀ c ∈ l, c.isDigit = true) : (pyInt (String.mk l)).isSome = true := by
  unfold pyInt
  have hl : (String.mk l).toList = l := rfl
  rw [hl, pyStripWs_of_digits l h]
  cases l with
  | nil => exact absurd rfl hne
  | cons c rest =>
    have hc := h c (List.mem_cons_self _ _)
    have hplus : ¬ c = '+' := by
      intro he
      subst he
      exact absurd hc (by decide)
    have hminus : ¬ c = '-' := by
      intro he
      subst he
      exact absurd hc (by decide)
    simp [hplus, hminus, pyIntDigits, hc]
    obtain ⟨n, hn⟩ := Option.isSome_iff_exists.mp
      (digitsGo_isSome rest (fun x hx => h x (List.mem_cons_of_mem _ hx)) (c.toNat - 48))
    rw [hn]
    rfl

/-- A value in the digits-percent format keeps a non-empty all-digit list
after the percent signs are removed. -/
theorem stripPct_digits (s : String) (h : digitsPct s = true) :
    (stripPct s).toList ≠ [] ∧ ∀ c ∈ (stripPct s).toList, c.isDigit = true := by
  simp only [digitsPct, Bool.and_eq_true, Bool.or_eq_true, decide_eq_true_eq] at h
  obtain ⟨h1, h2⟩ := h
  have key : (stripPct s).toList = s.toList.takeWhile Char.isDigit := by
    show s.toList.filter _ = _
    conv_lhs => rw [← List.takeWhile_append_dropWhile Char.isDigit s.toList]
    rw [List.filter_append]
    have hds : (s.toList.takeWhile Char.isDigit).filter (fun c => decide (c ≠ '%')) =
        s.toList.takeWhile Char.isDigit := by
      rw [List.filter_eq_self]
      intro a ha
      have := List.mem_takeWhile_imp ha
      simp only [decide_eq_true_eq]
      intro he
      subst he
      exact absurd this (by decide)
    have hrest : (s.toList.dropWhile Char.isDigit).filter (fun c => decide (c ≠ '%')) = [] := by
      rcases h2 with h2 | h2 <;> rw [h2] <;> decide
    rw [hds, hrest, List.append_nil]
  rw [key]
  exact ⟨h1, fun c hc => List.mem_takeWhile_imp hc⟩

/-- A value in the digits-percent format is a non-empty string. -/
theorem digitsPct_ne_empty (s : String) (h : digitsPct s = true) : s ≠ "" := by
  intro he
  subst he
  exact absurd h (by decide)

/-- C10: for a LIMIT regulation matched to a LIMIT system rule with
non-empty value strings, the numeric check of evaluate_trace cannot raise
when each value string is decimal digits optionally followed by a percent
sign; and whenever evaluate_trace does raise, the failure is exactly the
integer parse of one of the two percent-stripped value strings - there is
no other error branch. -/
theorem C10_thm (t : Trace) :
    (∀ sr sc rv sv, t.system = some (sr, sc) →
      t.regulation.rule_type = "LIMIT" → sr.rule_type = "LIMIT" →
      t.regulation.value = some rv → sr.value = some sv →
      digitsPct rv = true → digitsPct sv = true →
      (evaluate_trace t).isSome = true) ∧
    (evaluate_trace t = none →
      ∃ sr sc rv sv, t.system = some (sr, sc) ∧
        t.regulation.rule_type = "LIMIT" ∧ sr.rule_type = "LIMIT" ∧
        t.regulation.value = some rv ∧ sr.value = some sv ∧ rv ≠ "" ∧ sv ≠ "" ∧
        (pyInt (stripPct rv) = none ∨ pyInt (stripPct sv) = none)) := by
  constructor
  · intro sr sc rv sv hsys hreg hsrl hrv hsv hdr hds
    have hmap : t.system.map Prod.fst = some sr := by rw [hsys]; rfl
    have hrvne : rv ≠ "" := digitsPct_ne_empty rv hdr
    have hsvne : sv ≠ "" := digitsPct_ne_empty sv hds
    obtain ⟨hne1, hdig1⟩ := stripPct_digits rv hdr
    obtain ⟨hne2, hdig2⟩ := stripPct_digits sv hds
    obtain ⟨ri, hri⟩ := Option.isSome_iff_exists.mp
      (pyInt_isSome_of_digits (stripPct rv).toList hne1 hdig1)
    obtain ⟨si, hsi⟩ := Option.isSome_iff_exists.mp
      (pyInt_isSome_of_digits (stripPct sv).toList hne2 hdig2)
    have hri2 : pyInt (stripPct rv) = some ri := hri
    have hsi2 : pyInt (stripPct sv) = some si := hsi
    cases hlf : limitFindings t.regulation (t.system.map Prod.fst) with
    | some f2 => simp [evaluate_trace, hlf]
    | none =>
      exfalso
      simp [limitFindings, hreg, hmap, hsrl, hrv, hsv, truthyOpt, hrvne, hsvne,
        hri2, hsi2] at hlf
  · intro hn
    have hlf : limitFindings t.regulation (t.system.map Prod.fst) = none := by
      by_contra hne
      obtain ⟨f2, hf2⟩ := Option.ne_none_iff_exists'.mp hne
      simp [evaluate_trace, hf2] at hn
    unfold limitFindings at hlf
    by_cases hreg : t.regulation.rule_type = "LIMIT"
    · rw [if_pos hreg] at hlf
      cases hsys : t.system with
      | none => simp [hsys] at hlf
      | some p =>
        obtain ⟨sr, sc⟩ := p
        rw [hsys] at hlf
        simp only [Option.map_some'] at hlf
        by_cases hsrl : sr.rule_type = "LIMIT"
        · rw [if_neg (show ¬(sr.rule_type ≠ "LIMIT") from by simp [hsrl])] at hlf
          by_cases htr : (truthyOpt t.regulation.value && truthyOpt sr.value) = true
          · rw [if_pos htr] at hlf
            obtain ⟨ht1, ht2⟩ := Bool.and_eq_true_iff.mp htr
            cases hrv : t.regulation.value with
            | none => rw [hrv] at ht1; exact absurd ht1 (by simp [truthyOpt])
            | some rv =>
              cases hsv : sr.value with
              | none => rw [hsv] at ht2; exact absurd ht2 (by simp [truthyOpt])
              | some sv =>
                have hrvne : rv ≠ "" := by
                  rw [hrv] at ht1
                  simpa [truthyOpt] using ht1
                have hsvne : sv ≠ "" := by
                  rw [hsv] at ht2
                  simpa [truthyOpt] using ht2
                rw [hrv, hsv] at hlf
                simp only [Option.getD_some] at hlf
                refine ⟨sr, sc, rv, sv, rfl, hreg, hsrl, rfl, hsv, hrvne, hsvne, ?_⟩
                cases hpr : pyInt (stripPct rv) with
                | none => exact Or.inl rfl
                | some ri =>
                  cases hps : pyInt (stripPct sv) with
                  | none => exact Or.inr rfl
                  | some si => rw [hpr, hps] at hlf; cases hlf
          · rw [if_neg htr] at hlf
            cases hlf
        · rw [if_pos (show sr.rule_type ≠ "LIMIT" from hsrl)] at hlf
          cases hlf
    · rw [if_neg hreg] at hlf
      cases hlf

/-- C10 witness: the theorem applied at a trace whose regulation caps at
80 percent and whose system rule carries 75 percent - the parse succeeds. -/
theorem C10_witness :
    (evaluate_trace {
      regulation := { rule_type := "LIMIT", value := some "80%", raw_text := "r" },
      system := some ({ rule_type := "LIMIT", value := some "75%", raw_text := "s" }, 1) }).isSome
      = true :=
  (C10_thm _).1 _ 1 "80%" "75%" rfl rfl rfl rfl rfl (by decide) (by decide)

/-- The finding values are distinct strings. -/
theorem fvalue_injective : Function.Injective FindingType.fvalue := by
  intro a b h
  cases a <;> cases b <;> first | rfl | exact absurd h (by decide)

/-- Shape of a successful evaluation: the findings are the three blocks
concatenated, with COMPLIANT substituted for an empty list, rendered
through the finding values. -/
theorem evaluate_trace_shape (t : Trace) (r : EvalResult) (h : evaluate_trace t = some r) :
    ∃ f2, limitFindings t.regulation (t.system.map Prod.fst) = some f2 ∧
      r.findings =
        (let f1 := (if t.policy.map Prod.fst = none then [FindingType.missing_policy] else []) ++
          (if t.system.map Prod.fst = none then [FindingType.missing_system] else [])
        let f3 := reqFindings t.regulation (t.system.map Prod.fst)
        let fs := f1 ++ f2 ++ f3
        (if fs = [] then [FindingType.compliant] else fs)).map FindingType.fvalue := by
  simp only [evaluate_trace] at h
  cases hlf : limitFindings t.regulation (t.system.map Prod.fst) with
  | none =>
    rw [hlf] at h
    simp only [] at h
    exact absurd h (by simp)
  | some f2 =>
    rw [hlf] at h
    simp only [] at h
    exact ⟨f2, rfl, by rw [← Option.some.inj h]⟩

/-- Elements of the missing-enforcement block. -/
theorem mem_f1 (p s : Option XRule) (x : FindingType)
    (hx : x ∈ (if p = none then [FindingType.missing_policy] else []) ++
      (if s = none then [FindingType.missing_system] else [])) :
    x = .missing_policy ∨ x = .missing_system := by
  rcases List.mem_append.mp hx with h | h <;> split_ifs at h <;> simp_all

/-- Possible outputs of the numeric limit block. -/
theorem limitFindings_cases (reg : XRule) (sys : Option XRule) (f2 : List FindingType)
    (h : limitFindings reg sys = some f2) :
    f2 = [] ∨ (f2 = [.missing_system] ∧ reg.rule_type = "LIMIT" ∧ sys = none) ∨
    (f2 = [.system_too_lenient] ∧ ∃ s, sys = some s) := by
  unfold limitFindings at h
  by_cases hreg : reg.rule_type = "LIMIT"
  · rw [if_pos hreg] at h
    cases hsys : sys with
    | none =>
      rw [hsys] at h
      simp only [] at h
      exact Or.inr (Or.inl ⟨(Option.some.inj h).symm, hreg, rfl⟩)
    | some s =>
      rw [hsys] at h
      simp only [] at h
      by_cases hsl : s.rule_type ≠ "LIMIT"
      · rw [if_pos hsl] at h
        exact Or.inr (Or.inr ⟨(Option.some.inj h).symm, s, rfl⟩)
      · rw [if_neg hsl] at h
        by_cases htr : (truthyOpt reg.value && truthyOpt s.value) = true
        · rw [if_pos htr] at h
          cases hpr : pyInt (stripPct (reg.value.getD "")) with
          | none =>
            rw [hpr] at h
            exact absurd h (by simp)
          | some ri =>
            cases hps : pyInt (stripPct (s.value.getD "")) with
            | none =>
              rw [hpr, hps] at h
              exact absurd h (by simp)
            | some si =>
              rw [hpr, hps] at h
              simp only [] at h
              split_ifs at h with hgt
              · exact Or.inr (Or.inr ⟨(Option.some.inj h).symm, s, rfl⟩)
              · exact Or.inl (Option.some.inj h).symm
        · rw [if_neg htr] at h
          exact Or.inl (Option.some.inj h).symm
  · rw [if_neg hreg] at h
    exact Or.inl (Option.some.inj h).symm

/-- Possible outputs of the control strength block. -/
theorem reqFindings_cases (reg : XRule) (sys : Option XRule) :
    reqFindings reg sys = [] ∨
    (reqFindings reg sys = [.control_weakened] ∧
      ∃ s, sys = some s ∧ reg.rule_type = "REQUIREMENT") := by
  unfold reqFindings
  by_cases hreg : reg.rule_type = "REQUIREMENT"
  · rw [if_pos hreg]
    cases sys with
    | none => exact Or.inl rfl
    | some s =>
      simp only []
      by_cases hop : reg.operator = some "REQUIRED" ∧ s.operator = some "OPTIONAL"
      · rw [if_pos hop]
        exact Or.inr ⟨rfl, s, rfl, hreg⟩
      · rw [if_neg hop]
        exact Or.inl rfl
  · rw [if_neg hreg]
    exact Or.inl rfl

/-- C6 amended: every successful evaluation yields a non-empty findings
list, COMPLIANT appears iff it is the sole finding, and the list is
duplicate-free except that MISSING_SYSTEM appears twice exactly when the
regulation is a LIMIT with no system match (the missing-enforcement block
and the numeric limit block each append it). -/
theorem C6_amended (t : Trace) (r : EvalResult) (h : evaluate_trace t = some r) :
    r.findings ≠ [] ∧
    ("COMPLIANT" ∈ r.findings ↔ r.findings = ["COMPLIANT"]) ∧
    (r.findings.Nodup ↔ ¬(t.regulation.rule_type = "LIMIT" ∧ t.system = none)) := by
  obtain ⟨f2, hlf, hfind⟩ := evaluate_trace_shape t r h
  simp only [] at hfind
  set f1 := (if t.policy.map Prod.fst = none then [FindingType.missing_policy] else []) ++
    (if t.system.map Prod.fst = none then [FindingType.missing_system] else []) with hf1
  set f3 := reqFindings t.regulation (t.system.map Prod.fst) with hf3
  set fs := f1 ++ f2 ++ f3 with hfs
  have hmemf2 : ∀ x ∈ f2, x = FindingType.missing_system ∨ x = FindingType.system_too_lenient := by
    rcases limitFindings_cases _ _ _ hlf with h2 | ⟨h2, _, _⟩ | ⟨h2, _⟩ <;> rw [h2] <;>
      intro x hx <;> simp_all
  have hmemf3 : ∀ x ∈ f3, x = FindingType.control_weakened := by
    rcases reqFindings_cases t.regulation (t.system.map Prod.fst) with h2 | ⟨h2, _⟩ <;>
      rw [hf3, h2] <;> intro x hx <;> simp_all
  have hcomp : FindingType.compliant ∉ fs := by
    intro hx
    rw [hfs] at hx
    rcases List.mem_append.mp hx with hx | hx
    · rcases List.mem_append.mp hx with hx | hx
      · rcases mem_f1 _ _ _ hx with h2 | h2 <;> cases h2
      · rcases hmemf2 _ hx with h2 | h2 <;> cases h2
    · cases hmemf3 _ hx
  refine ⟨?_, ?_, ?_⟩
  · rw [hfind]
    by_cases hfs0 : fs = []
    · rw [if_pos hfs0]
      simp
    · rw [if_neg hfs0]
      simp [hfs0]
  · by_cases hfs0 : fs = []
    · rw [hfind, if_pos hfs0]
      simp [FindingType.fvalue]
    · rw [hfind, if_neg hfs0]
      have hno : ¬ ("COMPLIANT" ∈ fs.map FindingType.fvalue) := by
        intro hm
        obtain ⟨a, ha, hav⟩ := List.mem_map.mp hm
        have : a = FindingType.compliant := fvalue_injective hav
        subst this
        exact hcomp ha
      constructor
      · intro hm
        exact absurd hm hno
      · intro heq
        exfalso
        apply hno
        rw [heq]
        simp
  · have hf1nodup : f1.Nodup := by
      rw [hf1]
      split_ifs <;> decide
    by_cases hln : t.regulation.rule_type = "LIMIT" ∧ t.system = none
    · obtain ⟨hreg, hsysn⟩ := hln
      have hsysm : t.system.map Prod.fst = none := by rw [hsysn]; rfl
      have hf2v : f2 = [FindingType.missing_system] := by
        have hv : limitFindings t.regulation none = some [FindingType.missing_system] := by
          simp [limitFindings, hreg]
        rw [hsysm, hv] at hlf
        exact (Option.some.inj hlf).symm
      have hms1 : FindingType.missing_system ∈ f1 := by
        rw [hf1, hsysm]
        simp
      have hnotnd : ¬ fs.Nodup := by
        rw [hfs]
        intro hnd
        have h12 := (List.nodup_append.mp (List.nodup_append.mp hnd).1).2.2
        exact h12 hms1 (by rw [hf2v]; simp)
      have hfsne : fs ≠ [] := by
        intro h0
        have : FindingType.missing_system ∈ fs := by
          rw [hfs]
          exact List.mem_append.mpr (Or.inl (List.mem_append.mpr (Or.inl hms1)))
        rw [h0] at this
        cases this
      rw [hfind, if_neg hfsne, List.nodup_map_iff fvalue_injective]
      simp [hnotnd, hreg, hsysn]
    · have hnd : fs.Nodup := by
        rw [hfs]
        have hf2nodup : f2.Nodup := by
          rcases limitFindings_cases _ _ _ hlf with h2 | ⟨h2, _, _⟩ | ⟨h2, _⟩ <;> rw [h2] <;> decide
        have hf3nodup : f3.Nodup := by
          rcases reqFindings_cases t.regulation (t.system.map Prod.fst) with h2 | ⟨h2, _⟩ <;>
            rw [hf3, h2] <;> decide
        have hd12 : f1.Disjoint f2 := by
          intro x hx1 hx2
          rcases mem_f1 _ _ _ hx1 with rfl | rfl
          · rcases hmemf2 _ hx2 with h2 | h2 <;> cases h2
          · rcases limitFindings_cases _ _ _ hlf with h2 | ⟨h2, hr2, hs2⟩ | ⟨h2, _⟩
            · rw [h2] at hx2
              cases hx2
            · exact hln ⟨hr2, Option.map_eq_none'.mp hs2⟩
            · rw [h2] at hx2
              simp at hx2
        have hd3 : (f1 ++ f2).Disjoint f3 := by
          intro x hx1 hx3
          have hcw := hmemf3 _ hx3
          subst hcw
          rcases List.mem_append.mp hx1 with h2 | h2
          · rcases mem_f1 _ _ _ h2 with h3 | h3 <;> cases h3
          · rcases hmemf2 _ h2 with h3 | h3 <;> cases h3
        exact List.nodup_append.mpr ⟨List.nodup_append.mpr ⟨hf1nodup, hf2nodup, hd12⟩,
          hf3nodup, hd3⟩
      by_cases hfs0 : fs = []
      · rw [hfind, if_pos hfs0]
        simp [hln]
      · rw [hfind, if_neg hfs0, List.nodup_map_iff fvalue_injective]
        simp [hnd, hln]

/-- C6 counterexample: a LIMIT regulation with neither match yields the
findings list [MISSING_POLICY, MISSING_SYSTEM, MISSING_SYSTEM], which has a
duplicate element - the findings are not a duplicate-free set. -/
theorem C6_counterexample :
    (evaluate_trace { regulation := { rule_type := "LIMIT", raw_text := "r" } }).map
      EvalResult.findings = some ["MISSING_POLICY", "MISSING_SYSTEM", "MISSING_SYSTEM"] ∧
    ¬ (["MISSING_POLICY", "MISSING_SYSTEM", "MISSING_SYSTEM"] : List String).Nodup := by
  constructor
  · decide
  · decide

/-- C6 witness: the amended theorem applied at a fully matched non-LIMIT
trace, whose evaluation is the single COMPLIANT finding. -/
theorem C6_amended_witness :
    ({ regulation_text := "r", findings := ["COMPLIANT"], evidence_policy := some "p",
       evidence_system := some "s" } : EvalResult).findings ≠ [] ∧
    ({ regulation_text := "r", findings := ["COMPLIANT"], evidence_policy := some "p",
       evidence_system := some "s" } : EvalResult).findings = ["COMPLIANT"] := by
  have h := C6_amended
    { regulation := { rule_type := "OTHER", raw_text := "r" },
      policy := some ({ raw_text := "p" }, 1),
      system := some ({ raw_text := "s" }, 1) }
    { regulation_text := "r", findings := ["COMPLIANT"], evidence_policy := some "p",
      evidence_system := some "s" }
    (by decide)
  exact ⟨h.1, h.2.1.mp (by decide)⟩

/-- C7: on every successful evaluation result, the formatter severity
equals the spec mapping - HIGH when SYSTEM_TOO_LENIENT or MISSING_SYSTEM is
present, else MEDIUM when CONTROL_WEAKENED is present, else LOW; the
formatter checks CONTROL_WEAKENED before MISSING_SYSTEM, but those two
findings never co-occur in an evaluation result. -/
theorem C7_thm (t : Trace) (r : EvalResult) (h : evaluate_trace t = some r) :
    (format_audit_entry r).severity =
      (if r.findings.contains "SYSTEM_TOO_LENIENT" || r.findings.contains "MISSING_SYSTEM"
        then "HIGH"
      else if r.findings.contains "CONTROL_WEAKENED" then "MEDIUM"
      else "LOW") := by
  obtain ⟨f2, hlf, hfind⟩ := evaluate_trace_shape t r h
  simp only [] at hfind
  set f1 := (if t.policy.map Prod.fst = none then [FindingType.missing_policy] else []) ++
    (if t.system.map Prod.fst = none then [FindingType.missing_system] else []) with hf1
  set f3 := reqFindings t.regulation (t.system.map Prod.fst) with hf3
  set fs := f1 ++ f2 ++ f3 with hfs
  have hkey : "CONTROL_WEAKENED" ∈ r.findings → "MISSING_SYSTEM" ∉ r.findings := by
    intro hcw
    rw [hfind] at hcw ⊢
    by_cases hfs0 : fs = []
    · rw [if_pos hfs0] at hcw
      simp [FindingType.fvalue] at hcw
    · rw [if_neg hfs0] at hcw ⊢
      obtain ⟨a, ha, hav⟩ := List.mem_map.mp hcw
      have haeq : a = FindingType.control_weakened := fvalue_injective hav
      subst haeq
      have hcwf3 : FindingType.control_weakened ∈ f3 := by
        rw [hfs] at ha
        rcases List.mem_append.mp ha with hx | hx
        · exfalso
          rcases List.mem_append.mp hx with hx | hx
          · rcases mem_f1 _ _ _ hx with h2 | h2 <;> cases h2
          · rcases limitFindings_cases _ _ _ hlf with h2 | ⟨h2, _, _⟩ | ⟨h2, _⟩ <;>
              rw [h2] at hx <;> simp_all
        · exact hx
      have hex : ∃ s, t.system.map Prod.fst = some s ∧
          t.regulation.rule_type = "REQUIREMENT" := by
        rcases reqFindings_cases t.regulation (t.system.map Prod.fst) with h2 | ⟨h2, hex⟩
        · rw [hf3, h2] at hcwf3
          cases hcwf3
        · exact hex
      obtain ⟨s, hsysm, _⟩ := hex
      intro hmsm
      obtain ⟨b, hb, hbv⟩ := List.mem_map.mp hmsm
      have hbeq : b = FindingType.missing_system := fvalue_injective hbv
      subst hbeq
      rw [hfs] at hb
      rcases List.mem_append.mp hb with hx | hx
      · rcases List.mem_append.mp hx with hx | hx
        · rw [hf1] at hx
          rcases List.mem_append.mp hx with hy | hy
          · split_ifs at hy <;> simp_all
          · rw [hsysm] at hy
            simp at hy
        · rcases limitFindings_cases _ _ _ hlf with h2 | ⟨h2, _, hs2⟩ | ⟨h2, _⟩
          · rw [h2] at hx
            cases hx
          · rw [hsysm] at hs2
            cases hs2
          · rw [h2] at hx
            simp at hx
      · rcases reqFindings_cases t.regulation (t.system.map Prod.fst) with h2 | ⟨h2, _⟩ <;>
          rw [hf3] at hx <;> rw [h2] at hx <;> simp_all
  unfold format_audit_entry
  by_cases h1 : "SYSTEM_TOO_LENIENT" ∈ r.findings
  · simp [h1]
  · by_cases h2 : "CONTROL_WEAKENED" ∈ r.findings
    · have h3 : "MISSING_SYSTEM" ∉ r.findings := hkey h2
      simp [h1, h2, h3]
    · by_cases h3 : "MISSING_SYSTEM" ∈ r.findings
      · simp [h1, h2, h3]
      · simp [h1, h2, h3]

/-- C7 witness: the theorem applied at a trace with no matches at all; the
formatter assigns HIGH because MISSING_SYSTEM is present. -/
theorem C7_witness :
    (format_audit_entry {
      regulation_text := "r",
      findings := ["MISSING_POLICY", "MISSING_SYSTEM", "MISSING_SYSTEM"],
      evidence_policy := none, evidence_system := none }).severity = "HIGH" := by
  have h := C7_thm { regulation := { rule_type := "LIMIT", raw_text := "r" } }
    { regulation_text := "r",
      findings := ["MISSING_POLICY", "MISSING_SYSTEM", "MISSING_SYSTEM"],
      evidence_policy := none, evidence_system := none }
    (by decide)
  rw [h]
  decide

/-- Pointwise equal predicates find the same first element. -/
theorem find_congr {α : Type} (p q : α → Bool) :
    ∀ l : List α, (∀ x ∈ l, p x = q x) → l.find? p = l.find? q := by
  intro l
  induction l with
  | nil => intro _; rfl
  | cons a rest ih =>
    intro h
    have ha := h a (List.mem_cons_self _ _)
    cases hp : p a with
    | true =>
      rw [List.find?_cons_of_pos _ hp, List.find?_cons_of_pos _ (ha ▸ hp)]
    | false =>
      rw [List.find?_cons_of_neg _ (by simp [hp]), List.find?_cons_of_neg _ (by simp [← ha, hp])]
      exact ih fun x hx => h x (List.mem_cons_of_mem _ hx)

/-- The linker loop keeps its best when no candidate both clears its
threshold and strictly beats the running best score. -/
theorem bmGo_none (sim : String → String → ℚ) (thr : ℚ) (src : XRule) :
    ∀ (cands : List XRule) (best : Option (XRule × ℚ)) (bs : ℚ),
      (∀ c ∈ cands, ¬(bmThr thr src c ≤ bmTotal sim src c ∧ bs < bmTotal sim src c)) →
      bmGo sim thr src cands best bs = best := by
  intro cands
  induction cands with
  | nil => intro best bs _; rfl
  | cons c rest ih =>
    intro best bs h
    have hc := h c (List.mem_cons_self _ _)
    simp only [bmGo]
    rw [if_neg (fun hcon => hc ⟨hcon.2, hcon.1⟩)]
    exact ih best bs fun x hx => h x (List.mem_cons_of_mem _ hx)

/-- When some candidate clears its threshold and beats the running best,
the linker loop ends on the first-seen candidate of maximal score among
those, reported at the capped rounded score. -/
theorem bmGo_some (sim : String → String → ℚ) (thr : ℚ) (src : XRule) :
    ∀ (cands : List XRule) (best : Option (XRule × ℚ)) (bs : ℚ) (c : XRule),
      c ∈ cands → bmThr thr src c ≤ bmTotal sim src c → bs < bmTotal sim src c →
      ∃ d, bmGo sim thr src cands best bs = some (d, round3 (min (bmTotal sim src d) 1)) ∧
        d ∈ cands ∧ bmThr thr src d ≤ bmTotal sim src d ∧ bs < bmTotal sim src d ∧
        (∀ e ∈ cands, bmThr thr src e ≤ bmTotal sim src e → bs < bmTotal sim src e →
          bmTotal sim src e ≤ bmTotal sim src d) ∧
        cands.find? (fun e => decide ((bmThr thr src e ≤ bmTotal sim src e ∧
          bs < bmTotal sim src e) ∧ bmTotal sim src d ≤ bmTotal sim src e)) = some d := by
  intro cands
  induction cands with
  | nil => intro best bs c hc; exact absurd hc (List.not_mem_nil c)
  | cons a rest ih =>
    intro best bs c hc hthr hbs
    simp only [bmGo]
    by_cases hacc : bmThr thr src a ≤ bmTotal sim src a ∧ bs < bmTotal sim src a
    · have hcond : bmTotal sim src a > bs ∧ bmTotal sim src a ≥ bmThr thr src a :=
        ⟨hacc.2, hacc.1⟩
      rw [if_pos hcond]
      by_cases hex : ∃ e ∈ rest, bmThr thr src e ≤ bmTotal sim src e ∧
          bmTotal sim src a < bmTotal sim src e
      · obtain ⟨e, he, he1, he2⟩ := hex
        obtain ⟨d, hd0, hd1, hd2, hd3, hd4, hd5⟩ :=
          ih (some (a, round3 (min (bmTotal sim src a) 1))) (bmTotal sim src a) e he he1 he2
        refine ⟨d, hd0, List.mem_cons_of_mem _ hd1, hd2, lt_trans hacc.2 hd3, ?_, ?_⟩
        · intro f hf hf1 hf2
          rcases List.mem_cons.mp hf with rfl | hfr
          · exact le_of_lt hd3
          · by_cases hfa : bmTotal sim src a < bmTotal sim src f
            · exact hd4 f hfr hf1 hfa
            · exact le_trans (not_lt.mp hfa) (le_of_lt hd3)
        · rw [List.find?_cons_of_neg _ (by
            simp only [decide_eq_true_eq]
            rintro ⟨-, hle⟩
            exact absurd hle (not_le.mpr hd3))]
          rw [find_congr
            (fun e => decide ((bmThr thr src e ≤ bmTotal sim src e ∧
              bs < bmTotal sim src e) ∧ bmTotal sim src d ≤ bmTotal sim src e))
            (fun e => decide ((bmThr thr src e ≤ bmTotal sim src e ∧
              bmTotal sim src a < bmTotal sim src e) ∧ bmTotal sim src d ≤ bmTotal sim src e))
            rest (by
              intro x _
              refine decide_eq_decide.mpr ?_
              constructor
              · rintro ⟨⟨h1, -⟩, h3⟩
                exact ⟨⟨h1, lt_of_lt_of_le hd3 h3⟩, h3⟩
              · rintro ⟨⟨h1, -⟩, h3⟩
                exact ⟨⟨h1, lt_of_lt_of_le (lt_trans hacc.2 hd3) h3⟩, h3⟩)]
          exact hd5
      · push_neg at hex
        have hstall := bmGo_none sim thr src rest
          (some (a, round3 (min (bmTotal sim src a) 1))) (bmTotal sim src a)
          (by
            intro e he hcon
            exact absurd hcon.2 (not_lt.mpr (hex e he hcon.1)))
        refine ⟨a, hstall, List.mem_cons_self _ _, hacc.1, hacc.2, ?_, ?_⟩
        · intro f hf hf1 hf2
          rcases List.mem_cons.mp hf with rfl | hfr
          · exact le_refl _
          · exact hex f hfr hf1
        · rw [List.find?_cons_of_pos _ (by
            simp only [decide_eq_true_eq]
            exact ⟨⟨hacc.1, hacc.2⟩, le_refl _⟩)]
    · rw [if_neg (fun hcon => hacc ⟨hcon.2, hcon.1⟩)]
      have hca : c ∈ rest := by
        rcases List.mem_cons.mp hc with rfl | h2
        · exact absurd ⟨hthr, hbs⟩ hacc
        · exact h2
      obtain ⟨d, hd0, hd1, hd2, hd3, hd4, hd5⟩ := ih best bs c hca hthr hbs
      refine ⟨d, hd0, List.mem_cons_of_mem _ hd1, hd2, hd3, ?_, ?_⟩
      · intro f hf hf1 hf2
        rcases List.mem_cons.mp hf with rfl | hfr
        · exact absurd ⟨hf1, hf2⟩ hacc
        · exact hd4 f hfr hf1 hf2
      · rw [List.find?_cons_of_neg _ (by
          simp only [decide_eq_true_eq]
          rintro ⟨hab, -⟩
          exact hacc hab)]
        exact hd5

/-- Rounding to three decimals keeps values inside [0, 1]. -/
theorem round3_bounds (x : ℚ) (h0 : 0 ≤ x) (h1 : x ≤ 1) : 0 ≤ round3 x ∧ round3 x ≤ 1 := by
  unfold round3
  rw [round_eq]
  constructor
  · apply div_nonneg _ (by norm_num)
    have hf : (0:ℤ) ≤ ⌊x * 1000 + 1/2⌋ := by
      apply Int.le_floor.mpr
      push_cast
      linarith
    exact_mod_cast hf
  · rw [div_le_one (by norm_num : (0:ℚ) < 1000)]
    have hf : ⌊x * 1000 + 1/2⌋ < 1001 := by
      apply Int.floor_lt.mpr
      push_cast
      linarith
    have hf2 : ⌊x * 1000 + 1/2⌋ ≤ 1000 := by omega
    exact_mod_cast hf2

/-- C5 amended: with a similarity collaborator ranging in [0, 1] and a
regulation source, the candidate score is the similarity plus a 0.25 bonus
added exactly when the source carries a non-null, non-empty metric equal to
the candidate metric; the acceptance threshold is 0.45 for SYSTEM
candidates and the 0.6 default otherwise; no match is returned iff no
candidate reaches its threshold; and a returned match is a pool member
reaching its threshold, carries the capped score rounded to three decimals
inside [0, 1], has maximal score among accepted candidates, and is the
first-seen candidate attaining that maximum. -/
theorem C5_amended (sim : String → String → ℚ)
    (hsim : ∀ a b, 0 ≤ sim a b ∧ sim a b ≤ 1)
    (src : XRule) (hsrc : src.doc_type = "REGULATION") (cands : List XRule) :
    (∀ c : XRule, bmTotal sim src c = sim src.raw_text c.raw_text +
      (if src.metric ≠ none ∧ src.metric ≠ some "" ∧ src.metric = c.metric
        then (1:ℚ)/4 else 0)) ∧
    (∀ c : XRule, bmThr (3/5) src c = if c.doc_type = "SYSTEM" then (9:ℚ)/20 else 3/5) ∧
    (best_match sim (3/5) src cands = none ↔
      ∀ c ∈ cands, ¬ (bmThr (3/5) src c ≤ bmTotal sim src c)) ∧
    (∀ c s, best_match sim (3/5) src cands = some (c, s) →
      c ∈ cands ∧ bmThr (3/5) src c ≤ bmTotal sim src c ∧
      s = round3 (min (bmTotal sim src c) 1) ∧ 0 ≤ s ∧ s ≤ 1 ∧
      (∀ d ∈ cands, bmThr (3/5) src d ≤ bmTotal sim src d →
        bmTotal sim src d ≤ bmTotal sim src c) ∧
      cands.find? (fun d => decide ((bmThr (3/5) src d ≤ bmTotal sim src d) ∧
        bmTotal sim src c ≤ bmTotal sim src d)) = some c) := by
  have hthrpos : ∀ c : XRule, 0 < bmThr (3/5 : ℚ) src c := by
    intro c
    unfold bmThr
    split_ifs <;> norm_num
  have htot0 : ∀ c : XRule, 0 ≤ bmTotal sim src c := by
    intro c
    unfold bmTotal
    have h := (hsim src.raw_text c.raw_text).1
    have hb : (0:ℚ) ≤ (if truthyOpt src.metric && (src.metric == c.metric)
        then (1:ℚ)/4 else 0) := by
      split_ifs <;> norm_num
    linarith
  refine ⟨?_, ?_, ?_, ?_⟩
  · intro c
    rcases hm : src.metric with _ | m
    · simp [bmTotal, truthyOpt, hm]
    · by_cases hme : m = ""
      · subst hme
        simp [bmTotal, truthyOpt, hm]
      · by_cases hcm : some m = c.metric
        · unfold bmTotal
          rw [hm, ← hcm]
          simp [truthyOpt, hme]
        · unfold bmTotal
          rw [hm]
          simp [truthyOpt, hme, hcm]
  · intro c
    unfold bmThr
    rw [hsrc]
    simp
  · constructor
    · intro hn c hcmem hcthr
      have h0 : (0:ℚ) < bmTotal sim src c := lt_of_lt_of_le (hthrpos c) hcthr
      obtain ⟨d, hd0, -⟩ := bmGo_some sim (3/5) src cands none 0 c hcmem hcthr h0
      unfold best_match at hn
      rw [hn] at hd0
      cases hd0
    · intro hall
      unfold best_match
      apply bmGo_none
      intro c hcmem hcon
      exact hall c hcmem hcon.1
  · intro c s hcs
    unfold best_match at hcs
    by_cases hex : ∃ e ∈ cands, bmThr (3/5 : ℚ) src e ≤ bmTotal sim src e
    · obtain ⟨e, he, he1⟩ := hex
      have he2 : (0:ℚ) < bmTotal sim src e := lt_of_lt_of_le (hthrpos e) he1
      obtain ⟨d, hd0, hd1, hd2, hd3, hd4, hd5⟩ :=
        bmGo_some sim (3/5) src cands none 0 e he he1 he2
      rw [hd0] at hcs
      have hinj := Option.some.inj hcs
      have hdc : d = c := congrArg Prod.fst hinj
      have hsv : round3 (min (bmTotal sim src d) 1) = s := congrArg Prod.snd hinj
      subst hdc
      subst hsv
      have hmin0 : 0 ≤ min (bmTotal sim src d) 1 := le_min (htot0 d) (by norm_num)
      have hmin1 : min (bmTotal sim src d) 1 ≤ 1 := min_le_right _ _
      refine ⟨hd1, hd2, rfl, (round3_bounds _ hmin0 hmin1).1, (round3_bounds _ hmin0 hmin1).2,
        ?_, ?_⟩
      · intro f hf hf1
        exact hd4 f hf hf1 (lt_of_lt_of_le (hthrpos f) hf1)
      · rw [find_congr
          (fun x => decide ((bmThr (3/5 : ℚ) src x ≤ bmTotal sim src x) ∧
            bmTotal sim src d ≤ bmTotal sim src x))
          (fun x => decide ((bmThr (3/5 : ℚ) src x ≤ bmTotal sim src x ∧
            (0:ℚ) < bmTotal sim src x) ∧ bmTotal sim src d ≤ bmTotal sim src x))
          cands (by
            intro x _
            refine decide_eq_decide.mpr ?_
            constructor
            · rintro ⟨h1, h3⟩
              exact ⟨⟨h1, lt_of_lt_of_le (hthrpos x) h1⟩, h3⟩
            · rintro ⟨⟨h1, -⟩, h3⟩
              exact ⟨h1, h3⟩)]
        exact hd5
    · push_neg at hex
      have hn := bmGo_none sim (3/5) src cands none 0
        (fun e he hcon => absurd hcon.1 (not_le.mpr (hex e he)))
      rw [hn] at hcs
      cases hcs

/-- C5 witness: the amended theorem applied at a constant 0.7 collaborator
with one policy candidate sharing the LTV metric - a match is returned
because 0.7 + 0.25 clears the 0.6 default threshold. -/
theorem C5_amended_witness :
    best_match (fun _ _ => (7:ℚ)/10) (3/5)
      { doc_type := "REGULATION", raw_text := "reg", metric := some "LTV" }
      [{ doc_type := "POLICY", raw_text := "pol", metric := some "LTV" }] ≠ none := by
  intro hnone
  have h := (C5_amended (fun _ _ => (7:ℚ)/10)
    (fun a b => ⟨by norm_num, by norm_num⟩)
    { doc_type := "REGULATION", raw_text := "reg", metric := some "LTV" } rfl
    [{ doc_type := "POLICY", raw_text := "pol", metric := some "LTV" }]).2.2.1
  have hrej := h.mp hnone { doc_type := "POLICY", raw_text := "pol", metric := some "LTV" }
    (by simp)
  apply hrej
  rw [show bmTotal (fun _ _ => (7:ℚ)/10)
      { doc_type := "REGULATION", raw_text := "reg", metric := some "LTV" }
      { doc_type := "POLICY", raw_text := "pol", metric := some "LTV" } = 7/10 + 1/4 from rfl]
  rw [show bmThr ((3:ℚ)/5)
      { doc_type := "REGULATION", raw_text := "reg", metric := some "LTV" }
      { doc_type := "POLICY", raw_text := "pol", metric := some "LTV" } = 3/5 from rfl]
  norm_num

/-- C5 counterexample: with an empty-string metric on both sides (non-null
and equal) and similarity 0.3 against a SYSTEM candidate, the claim
predicts the 0.25 bonus and acceptance at 0.55 over the 0.45 threshold, but
the source tests metric truthiness, adds no bonus, and returns no match. -/
theorem C5_counterexample :
    best_match (fun _ _ => (3:ℚ)/10) (3/5)
      { doc_type := "REGULATION", raw_text := "reg", metric := some "" }
      [{ doc_type := "SYSTEM", raw_text := "sys", metric := some "" }] = none ∧
    ({ doc_type := "REGULATION", raw_text := "reg", metric := some "" } : XRule).metric =
      ({ doc_type := "SYSTEM", raw_text := "sys", metric := some "" } : XRule).metric ∧
    ({ doc_type := "REGULATION", raw_text := "reg", metric := some "" } : XRule).metric ≠
      none ∧
    (9:ℚ)/20 ≤ 3/10 + 1/4 := by
  refine ⟨?_, rfl, by simp, by norm_num⟩
  have h1 : bmTotal (fun _ _ => (3:ℚ)/10)
      { doc_type := "REGULATION", raw_text := "reg", metric := some "" }
      { doc_type := "SYSTEM", raw_text := "sys", metric := some "" } = 3/10 + 0 := rfl
  have h2 : bmThr ((3:ℚ)/5)
      { doc_type := "REGULATION", raw_text := "reg", metric := some "" }
      { doc_type := "SYSTEM", raw_text := "sys", metric := some "" } = 9/20 := rfl
  simp only [best_match, bmGo, h1, h2]
  rw [if_neg (by norm_num)]

/-- Field agreement is reflexive. -/
theorem thrEq_refl (a : Thr) : thrEq a a := ⟨rfl, rfl, rfl, rfl⟩

/-- Field agreement is symmetric. -/
theorem thrEq_symm {a b : Thr} (h : thrEq a b) : thrEq b a :=
  ⟨h.1.symm, h.2.1.symm, h.2.2.1.symm, h.2.2.2.symm⟩

/-- Field agreement is transitive. -/
theorem thrEq_trans {a b c : Thr} (h1 : thrEq a b) (h2 : thrEq b c) : thrEq a c :=
  ⟨h1.1.trans h2.1, h1.2.1.trans h2.2.1, h1.2.2.1.trans h2.2.2.1, h1.2.2.2.trans h2.2.2.2⟩

/-- Pointwise field agreement of pools is symmetric. -/
theorem forall2_thrEq_symm : ∀ {p q : List Thr},
    List.Forall₂ thrEq p q → List.Forall₂ thrEq q p := by
  intro p q h
  induction h with
  | nil => exact List.Forall₂.nil
  | cons hab _ ih => exact List.Forall₂.cons (thrEq_symm hab) ih

/-- Pointwise field agreement of pools is transitive. -/
theorem forall2_thrEq_trans : ∀ {p q r : List Thr},
    List.Forall₂ thrEq p q → List.Forall₂ thrEq q r → List.Forall₂ thrEq p r := by
  intro p q r h1
  induction h1 generalizing r with
  | nil =>
    intro h2
    cases h2
    exact List.Forall₂.nil
  | cons hab htl ih =>
    intro h2
    cases h2 with
    | cons hbc htl2 => exact List.Forall₂.cons (thrEq_trans hab hbc) (ih htl2)

/-- The pool emitted by the best-match loop agrees with the input pool on
every engine-visible field (only _llm_reason is ever written). -/
theorem fbmGo_pool_rel (o : OracleFun) (u : Bool) (rp ro : String) :
    ∀ (cands : List Thr) (best : Option Thr) (bs : ℚ),
      List.Forall₂ thrEq (fbmGo o u rp ro cands best bs).2.2 cands := by
  intro cands
  induction cands with
  | nil => intro best bs; exact List.Forall₂.nil
  | cons c rest ih =>
    intro best bs
    simp only [fbmGo]
    split_ifs <;> exact List.Forall₂.cons ⟨rfl, rfl, rfl, rfl⟩ (ih _ _)

/-- The pool emitted by find_best_match agrees with the input pool on every
engine-visible field. -/
theorem fbm_pool_rel (o : OracleFun) (u : Bool) (rt : Thr) (cands : List Thr) :
    List.Forall₂ thrEq (find_best_match o u rt cands).2 cands := by
  unfold find_best_match
  split_ifs with h1
  · exact List.forall₂_same.mpr fun x _ => thrEq_refl x
  · cases hb : (fbmGo o u rt.parameter rt.operator cands none 0).1 with
    | none => simpa [hb] using fbmGo_pool_rel o u rt.parameter rt.operator cands none 0
    | some b =>
      by_cases hs : (fbmGo o u rt.parameter rt.operator cands none 0).2.1 ≥ 2/5 <;>
        simpa [hb, hs] using fbmGo_pool_rel o u rt.parameter rt.operator cands none 0

/-- The best-match loop is insensitive to the _llm_reason side channel:
pools agreeing on every engine-visible field drive the loop through the
same decisions, related bests and equal scores. -/
theorem fbmGo_congr (o : OracleFun) (u : Bool) (rp ro : String) :
    ∀ {p q : List Thr}, List.Forall₂ thrEq p q →
      ∀ (b1 b2 : Option Thr) (bs : ℚ), Option.Rel thrEq b1 b2 →
      Option.Rel thrEq (fbmGo o u rp ro p b1 bs).1 (fbmGo o u rp ro q b2 bs).1 ∧
      (fbmGo o u rp ro p b1 bs).2.1 = (fbmGo o u rp ro q b2 bs).2.1 := by
  intro p q h
  induction h with
  | nil =>
    intro b1 b2 bs hb
    exact ⟨hb, rfl⟩
  | @cons a b tp tq hab htl ih =>
    intro b1 b2 bs hb
    obtain ⟨h1, h2, h3, h4⟩ := hab
    simp only [fbmGo]
    rw [← h1, ← h2]
    set B := (if operators_compatible ro a.operator then (1:ℚ)/10 else 0) with hB
    split_ifs
    all_goals
      first
        | exact ih _ _ _ (Option.Rel.some ⟨h1, h2, h3, h4⟩)
        | exact ih _ _ _ (Option.Rel.some ⟨rfl, rfl, h3, h4⟩)
        | exact ih _ _ _ hb

/-- find_best_match on pools agreeing on every engine-visible field returns
related results: both none, or matches agreeing on those fields at the same
confidence. -/
theorem fbm_congr (o : OracleFun) (u : Bool) (rt : Thr) {p q : List Thr}
    (h : List.Forall₂ thrEq p q) :
    Option.Rel (fun x y : Thr × ℚ => thrEq x.1 y.1 ∧ x.2 = y.2)
      (find_best_match o u rt p).1 (find_best_match o u rt q).1 := by
  unfold find_best_match
  split_ifs with h1
  · exact Option.Rel.none
  · obtain ⟨hrel, heq⟩ := fbmGo_congr o u rt.parameter rt.operator h none none 0 Option.Rel.none
    cases hx : (fbmGo o u rt.parameter rt.operator p none 0).1 with
    | none =>
      cases hy : (fbmGo o u rt.parameter rt.operator q none 0).1 with
      | none =>
        simp only [hx, hy]
        exact Option.Rel.none
      | some y =>
        rw [hx, hy] at hrel
        cases hrel
    | some x =>
      cases hy : (fbmGo o u rt.parameter rt.operator q none 0).1 with
      | none =>
        rw [hx, hy] at hrel
        cases hrel
      | some y =>
        rw [hx, hy] at hrel
        cases hrel with
        | some hxy =>
          simp only [hx, hy]
          rw [← heq]
          by_cases hg : (fbmGo o u rt.parameter rt.operator p none 0).2.1 ≥ 2/5
          · rw [if_pos hg, if_pos hg]
            exact Option.Rel.some ⟨hxy, rfl⟩
          · rw [if_neg hg, if_neg hg]
            exact Option.Rel.none

/-- Threshold comparison reads only the operator and value fields, so it is
invariant under field agreement. -/
theorem compare_thresholds_congr {a b c d : Thr} (hab : thrEq a b) (hcd : thrEq c d) :
    compare_thresholds a c = compare_thresholds b d := by
  obtain ⟨-, hop1, hv1, -⟩ := hab
  obtain ⟨-, hop2, hv2, -⟩ := hcd
  simp only [compare_thresholds, hop1, hv1, hop2, hv2]

/-- Appending to a non-empty string stays non-empty. -/
theorem append_ne_empty_left (a b : String) (h : a ≠ "") : a ++ b ≠ "" := by
  intro he
  have hd : a.data ++ b.data = ([] : List Char) := congrArg String.data he
  have h2 := List.append_eq_nil.mp hd
  apply h
  cases a
  cases h2.1
  rfl

/-- Appending a non-empty string yields a non-empty string. -/
theorem append_ne_empty_right (a b : String) (h : b ≠ "") : a ++ b ≠ "" := by
  intro he
  have hd : a.data ++ b.data = ([] : List Char) := congrArg String.data he
  have h2 := List.append_eq_nil.mp hd
  apply h
  cases b
  cases h2.2
  rfl

/-- The comparison loop is insensitive to the _llm_reason side channel of
its pool: pools agreeing on every engine-visible field produce identical
statuses and explanation lines. -/
theorem crGo_congr (o : OracleFun) : ∀ (rts : List Thr) {p q : List Thr},
    List.Forall₂ thrEq p q → crGo o rts p = crGo o rts q := by
  intro rts
  induction rts with
  | nil => intro p q _; rfl
  | cons rt rest ih =>
    intro p q h
    simp only [crGo]
    have hrel := fbm_congr o true rt h
    have hpool : List.Forall₂ thrEq (find_best_match o true rt p).2
        (find_best_match o true rt q).2 :=
      forall2_thrEq_trans (fbm_pool_rel o true rt p)
        (forall2_thrEq_trans h (forall2_thrEq_symm (fbm_pool_rel o true rt q)))
    cases hx : (find_best_match o true rt p).1 with
    | none =>
      cases hy : (find_best_match o true rt q).1 with
      | none =>
        simp only [hx, hy]
        rw [ih hpool]
      | some yq =>
        rw [hx, hy] at hrel
        cases hrel
    | some xp =>
      obtain ⟨mtp, cp⟩ := xp
      cases hy : (find_best_match o true rt q).1 with
      | none =>
        rw [hx, hy] at hrel
        cases hrel
      | some yq =>
        obtain ⟨mtq, cq⟩ := yq
        rw [hx, hy] at hrel
        cases hrel with
        | some hxy =>
          simp only [hx, hy]
          have hcmp : compare_thresholds rt mtp = compare_thresholds rt mtq :=
            compare_thresholds_congr (thrEq_refl rt) hxy.1
          have hsid : mtp.source_id = mtq.source_id := hxy.1.2.2.2
          rw [ih hpool, hcmp, hsid]

/-- Status of the comparison loop: true exactly when every regulatory
threshold passes against the original pool (the in-place _llm_reason writes
threaded through the pool do not change any decision). -/
theorem crGo_status (o : OracleFun) : ∀ (rts pool : List Thr),
    ((crGo o rts pool).1 = true ↔ ∀ rt ∈ rts, threshold_passes o rt pool = true) := by
  intro rts
  induction rts with
  | nil => intro pool; simp [crGo]
  | cons rt rest ih =>
    intro pool
    simp only [crGo]
    cases hx : (find_best_match o true rt pool).1 with
    | none =>
      simp only [hx]
      simp [threshold_passes, hx]
    | some xp =>
      obtain ⟨mt, cf⟩ := xp
      have hpool2 : crGo o rest (find_best_match o true rt pool).2 = crGo o rest pool :=
        crGo_congr o rest (fbm_pool_rel o true rt pool)
      simp only [hx, hpool2]
      have hhead : threshold_passes o rt pool = (compare_thresholds rt mt).1 := by
        simp [threshold_passes, hx]
      rw [Bool.and_eq_true, List.forall_mem_cons, hhead, ih pool]

/-- The comparison loop emits one non-empty explanation line per regulatory
threshold. -/
theorem crGo_expl (o : OracleFun) : ∀ (rts pool : List Thr),
    (crGo o rts pool).2.length = rts.length ∧ ∀ l ∈ (crGo o rts pool).2, l ≠ "" := by
  intro rts
  induction rts with
  | nil =>
    intro pool
    exact ⟨rfl, by intro l hl; cases hl⟩
  | cons rt rest ih =>
    intro pool
    simp only [crGo]
    cases hx : (find_best_match o true rt pool).1 with
    | none =>
      simp only [hx]
      refine ⟨by simp [(ih _).1], ?_⟩
      intro l hl
      rcases List.mem_cons.mp hl with rfl | hl2
      · apply append_ne_empty_right
        decide
      · exact (ih _).2 l hl2
    | some xp =>
      obtain ⟨mt, cf⟩ := xp
      simp only [hx]
      refine ⟨by simp [(ih _).1], ?_⟩
      intro l hl
      rcases List.mem_cons.mp hl with rfl | hl2
      · apply append_ne_empty_left
        apply append_ne_empty_left
        apply append_ne_empty_right
        decide
      · exact (ih _).2 l hl2

/-- Joining a non-empty list of non-empty lines is non-empty. -/
theorem pyJoin_ne_empty (sep : String) : ∀ (l : List String), l ≠ [] →
    (∀ x ∈ l, x ≠ "") → pyJoin sep l ≠ "" := by
  intro l
  induction l with
  | nil => intro h; exact absurd rfl h
  | cons x rest ih =>
    intro _ hall
    cases rest with
    | nil => simpa [pyJoin] using hall x (List.mem_cons_self _ _)
    | cons y t =>
      show x ++ sep ++ pyJoin sep (y :: t) ≠ ""
      apply append_ne_empty_left
      apply append_ne_empty_left
      exact hall x (List.mem_cons_self _ _)

/-- C4: compare_rule returns "N/A" iff the regulation has no thresholds;
returns "No" when the pooled source thresholds are empty; on a non-empty
pool returns "Yes" iff every regulatory threshold finds an accepted match
that passes comparison (and otherwise "No"); the status is always one of
the three and the explanation string is never empty — the embedding is a
total function, so no exception. -/
theorem C4_thm (o : OracleFun) (reg : Rule2) (srcRules : List Rule2) (st : String) :
    ((compare_rule o reg srcRules st).1 = "N/A" ↔ reg.thresholds = []) ∧
    (reg.thresholds ≠ [] → poolOf srcRules = [] →
      (compare_rule o reg srcRules st).1 = "No") ∧
    (reg.thresholds ≠ [] → poolOf srcRules ≠ [] →
      ((compare_rule o reg srcRules st).1 = "Yes" ↔
        ∀ rt ∈ reg.thresholds, threshold_passes o rt (poolOf srcRules) = true)) ∧
    ((compare_rule o reg srcRules st).1 = "N/A" ∨
      (compare_rule o reg srcRules st).1 = "Yes" ∨
      (compare_rule o reg srcRules st).1 = "No") ∧
    (compare_rule o reg srcRules st).2 ≠ "" := by
  by_cases hT : reg.thresholds = []
  · simp only [compare_rule, if_pos hT]
    exact ⟨by simp [hT], fun h _ => absurd hT h, fun h _ => absurd hT h,
      Or.inl trivial, by decide⟩
  · by_cases hP : poolOf srcRules = []
    · simp only [compare_rule, if_neg hT, if_pos hP]
      refine ⟨iff_of_false (by decide) hT, fun _ _ => trivial, fun _ h => absurd hP h,
        Or.inr (Or.inr trivial), ?_⟩
      apply append_ne_empty_left
      apply append_ne_empty_left
      decide
    · simp only [compare_rule, if_neg hT, if_neg hP]
      have hst := crGo_status o reg.thresholds (poolOf srcRules)
      have hex := crGo_expl o reg.thresholds (poolOf srcRules)
      set r := crGo o reg.thresholds (poolOf srcRules) with hr
      have hne : r.2 ≠ [] := by
        intro h0
        apply hT
        apply List.eq_nil_of_length_eq_zero
        rw [← hex.1, h0]
        rfl
      have hj : pyJoin "; " r.2 ≠ "" := pyJoin_ne_empty "; " r.2 hne hex.2
      cases hb : r.1 with
      | false =>
        rw [hb] at hst
        simp only [hb, Bool.false_eq_true, if_false]
        refine ⟨iff_of_false (by decide) hT, fun _ h => absurd h hP,
          fun _ _ => iff_of_false (by decide) ?_, Or.inr (Or.inr trivial), hj⟩
        intro hall
        exact absurd (hst.mpr hall) (by decide)
      | true =>
        rw [hb] at hst
        simp only [hb, if_true]
        refine ⟨iff_of_false (by decide) hT, fun _ h => absurd h hP,
          fun _ _ => ?_, Or.inr (Or.inl trivial), hj⟩
        exact ⟨fun _ => hst.mp rfl, fun _ => trivial⟩

/-- C4 witness: a regulation with one threshold against an empty rule list
gets status "No" with a non-empty explanation. -/
theorem C4_witness :
    (compare_rule (fun _ _ => (false, 0, ""))
      ⟨none, none, [{ parameter := "x" }]⟩ [] "policy").1 = "No" ∧
    (compare_rule (fun _ _ => (false, 0, ""))
      ⟨none, none, [{ parameter := "x" }]⟩ [] "policy").2 ≠ "" := by
  have h := C4_thm (fun _ _ => (false, 0, ""))
    ⟨none, none, [{ parameter := "x" }]⟩ [] "policy"
  exact ⟨h.2.1 (List.cons_ne_nil _ _) rfl, h.2.2.2.2⟩
